import Mathlib

/-!
Verification of the jsonize repository (an XML-to-JSON mapping library) against its
natural-language specification.

The development shallowly embeds the code of `src/jsonize/utils/json.py` (the JSONPath
algebra and the tree reader/writer of that revision), `src/jsonize/utils/xml.py` (the
XPath algebra, node relations and the sequence-tree builder) and
`src/jsonize/utils/mapping.py` (the mapping interpreter).  Python strings are modelled
as `List Char`, Python JSON-serializable values as the inductive `Json`, raised
exceptions as `Except PyErr`.

`src/jsonize/utils/mapping.py` imports `write_item_in_path`, `infer_json_type` and an
upper-case `JSONNodeType` from `jsonize.utils.json`, none of which exist in the revision
of `json.py` present under `src/` (that revision has a lower-case enum and no
`infer_json_type`); the newer revision of the json utilities that `mapping.py` (and
`tests/utils/test_json.py`) is written against is not part of `src/`.  Definitions that
stand in for that missing revision are marked `Modelled from the spec:` in their doc
comment and follow the specification text (spec.md sections 4.2 and 4.3).
-/

/-- One entry of a parsed JSONPath (`json.py:64-82`): a name (`str`), an index access
(`int`) or a Python `slice` object with its three optional components. -/
inductive JSeg where
  | key : List Char → JSeg
  | idx : Int → JSeg
  | slc : Option Int → Option Int → Option Int → JSeg
deriving DecidableEq, Repr

/-- Python exceptions raised by the embedded code.  Each constructor records which
`raise` site (or Python runtime error) produced it, and carries the payload the code
attaches (for example the failing sub-path). -/
inductive PyErr where
  | staticmethodMissingArg : PyErr
  | indexError : PyErr
  | typeErrorHead : PyErr
  | attributeError : PyErr
  | valueErrorNotRelative : PyErr
  | keyError : List JSeg → PyErr
  | notIndexable : List JSeg → PyErr
  | castError : List Char → Option (List Char) → PyErr
  | valueErrorNoItemMapping : PyErr
  | valueErrorCannotMapSequence : PyErr
  | valueErrorUnsupportedNodeType : PyErr
  | valueErrorNotAttribute : PyErr
  | valueErrorCast : PyErr
  | keyErrorNs : List Char → PyErr
  | typeErrorCast : PyErr
deriving DecidableEq, Repr

/-- Python values that can appear in a JSON-serializable document: `None`, booleans,
ints, floats, strings, lists and (string-keyed, insertion-ordered) dicts.  A float is
kept opaquely as the text it was cast from: no claim in this development depends on
float arithmetic, which a shallow embedding does not model. -/
inductive Json where
  | null : Json
  | bool : Bool → Json
  | int : Int → Json
  | num : List Char → Json
  | str : List Char → Json
  | arr : List Json → Json
  | obj : List (List Char × Json) → Json
deriving Repr

mutual

def Json.beq : Json → Json → Bool
  | .null, .null => true
  | .bool a, .bool b => a == b
  | .int a, .int b => a == b
  | .num a, .num b => a == b
  | .str a, .str b => a == b
  | .arr a, .arr b => Json.beqList a b
  | .obj a, .obj b => Json.beqFields a b
  | _, _ => false

def Json.beqList : List Json → List Json → Bool
  | [], [] => true
  | x :: xs, y :: ys => Json.beq x y && Json.beqList xs ys
  | _, _ => false

def Json.beqFields : List (List Char × Json) → List (List Char × Json) → Bool
  | [], [] => true
  | (k, v) :: xs, (l, w) :: ys => k == l && Json.beq v w && Json.beqFields xs ys
  | _, _ => false

end

mutual

theorem Json.beq_iff : ∀ a b : Json, Json.beq a b = true ↔ a = b
  | .null, .null => by simp [Json.beq]
  | .bool _, .bool _ => by simp [Json.beq]
  | .int _, .int _ => by simp [Json.beq]
  | .num _, .num _ => by simp [Json.beq]
  | .str _, .str _ => by simp [Json.beq]
  | .arr a, .arr b => by simp [Json.beq, Json.beqList_iff a b]
  | .obj a, .obj b => by simp [Json.beq, Json.beqFields_iff a b]
  | .null, .bool _ | .null, .int _ | .null, .num _ | .null, .str _ | .null, .arr _
  | .null, .obj _
  | .bool _, .null | .bool _, .int _ | .bool _, .num _ | .bool _, .str _ | .bool _, .arr _
  | .bool _, .obj _
  | .int _, .null | .int _, .bool _ | .int _, .num _ | .int _, .str _ | .int _, .arr _
  | .int _, .obj _
  | .num _, .null | .num _, .bool _ | .num _, .int _ | .num _, .str _ | .num _, .arr _
  | .num _, .obj _
  | .str _, .null | .str _, .bool _ | .str _, .int _ | .str _, .num _ | .str _, .arr _
  | .str _, .obj _
  | .arr _, .null | .arr _, .bool _ | .arr _, .int _ | .arr _, .num _ | .arr _, .str _
  | .arr _, .obj _
  | .obj _, .null | .obj _, .bool _ | .obj _, .int _ | .obj _, .num _ | .obj _, .str _
  | .obj _, .arr _ => by simp [Json.beq]

theorem Json.beqList_iff : ∀ xs ys : List Json, Json.beqList xs ys = true ↔ xs = ys
  | [], [] => by simp [Json.beqList]
  | x :: xs, y :: ys => by simp [Json.beqList, Json.beq_iff x y, Json.beqList_iff xs ys]
  | [], _ :: _ => by simp [Json.beqList]
  | _ :: _, [] => by simp [Json.beqList]

theorem Json.beqFields_iff :
    ∀ xs ys : List (List Char × Json), Json.beqFields xs ys = true ↔ xs = ys
  | [], [] => by simp [Json.beqFields]
  | (k, v) :: xs, (l, w) :: ys => by
    simp [Json.beqFields, Json.beq_iff v w, Json.beqFields_iff xs ys, and_assoc,
      Prod.ext_iff]
  | [], _ :: _ => by simp [Json.beqFields]
  | _ :: _, [] => by simp [Json.beqFields]

end

instance : DecidableEq Json := fun a b =>
  decidable_of_iff (Json.beq a b = true) (Json.beq_iff a b)

instance : Inhabited Json := ⟨Json.null⟩

/-- Python `str.split` on the dot character: `''.split('.') == ['']`,
`'a.'.split('.') == ['a', '']` (`json.py:71`). -/
def splitDots : List Char → List (List Char)
  | [] => [[]]
  | c :: rest =>
    match splitDots rest with
    | [] => [[]]
    | e :: es => if c = '.' then [] :: e :: es else (c :: e) :: es

/-- Decimal digit to its character, as Python `str` formatting produces it. -/
def digitChar : Nat → Char
  | 0 => '0'
  | 1 => '1'
  | 2 => '2'
  | 3 => '3'
  | 4 => '4'
  | 5 => '5'
  | 6 => '6'
  | 7 => '7'
  | 8 => '8'
  | 9 => '9'
  | _ => '?'

def isPyDigit (c : Char) : Bool := '0' ≤ c && c ≤ '9'

def charDigitVal (c : Char) : Nat := c.toNat - 48

/-- Little-endian decimal digits of `n`; the first argument is fuel, which
`n` itself always suffices for since `n / 10 < n` for positive `n`. -/
def natToRevDigitsAux : Nat → Nat → List Char
  | 0, _ => []
  | fuel + 1, n => if n = 0 then [] else digitChar (n % 10) :: natToRevDigitsAux fuel (n / 10)

/-- Decimal rendering of a natural number, as Python `f-string` formatting of a
non-negative `int` produces it. -/
def natRepr (n : Nat) : List Char := if n = 0 then ['0'] else (natToRevDigitsAux n n).reverse

/-- Decimal rendering of a Python `int` under `f-string` formatting. -/
def intRepr : Int → List Char
  | .ofNat n => natRepr n
  | .negSucc m => '-' :: natRepr (m + 1)

/-- Numeric value of a big-endian digit string. -/
def digitsVal (ds : List Char) : Nat := ds.foldl (fun a c => 10 * a + charDigitVal c) 0

/-- Reads pyparsing `Optional('-') + Word(nums)` from the front of the input and
converts it with Python `int` (`json.py:35-37, 44-56`): an optional minus sign followed
by one or more digits; `none` when no digits follow (pyparsing then resets the
position). -/
def readSignedInt : List Char → Option (Int × List Char)
  | [] => none
  | c :: rest =>
    if c = '-' then
      let ds := rest.takeWhile isPyDigit
      if ds = [] then none else some (-(digitsVal ds : Int), rest.dropWhile isPyDigit)
    else
      let ds := (c :: rest).takeWhile isPyDigit
      if ds = [] then none else some ((digitsVal ds : Int), (c :: rest).dropWhile isPyDigit)

/-- Truthiness of an optional Python int: `None` and `0` are falsy. -/
def truthyOpt : Option Int → Bool
  | none => false
  | some v => v != 0

/-- Builds the parsed entry for one bracket group (`json.py:42-60`): with a start but
neither a truthy stop nor a truthy step the group is index access, otherwise a slice
whose components record presence (`int(...)` if matched, `None` if not). -/
def mkSliceSeg (startO stopO stepO : Option Int) : JSeg :=
  match startO with
  | some s => if truthyOpt stopO || truthyOpt stepO then .slc (some s) stopO stepO else .idx s
  | none => .slc none stopO stepO

/-- Parses one `[...]` group of the pyparsing slice grammar (`json.py:35-37`):
`"[" + Optional(sign digits) + Optional(":" + sign digits + Optional(":" + sign digits)) + "]"`.
Returns the entry and the remaining input, or `none` when the group does not match
(whitespace skipping, which pyparsing would do, is not modelled: no rendered path
contains whitespace). -/
def parseSliceGroup : List Char → Option (JSeg × List Char)
  | '[' :: r1 =>
    let s := match readSignedInt r1 with
      | some (v, r) => ((some v : Option Int), r)
      | none => ((none : Option Int), r1)
    match s.2 with
    | ':' :: r3 =>
      match readSignedInt r3 with
      | none => none
      | some (stopV, r4) =>
        match r4 with
        | ':' :: r5 =>
          match readSignedInt r5 with
          | none => none
          | some (stepV, r6) =>
            match r6 with
            | ']' :: r7 => some (mkSliceSeg s.1 (some stopV) (some stepV), r7)
            | _ => none
        | ']' :: r5 => some (mkSliceSeg s.1 (some stopV) none, r5)
        | _ => none
    | ']' :: r3 => some (mkSliceSeg s.1 none none, r3)
    | _ => none
  | _ => none

/-- Zero-or-more bracket groups (`json.py:38-40`): parsing stops silently at the first
position where no group matches (the expression is parsed without `parseAll`, so a
trailing remainder is discarded).  The fuel is the input length; every successful group
consumes at least one character. -/
def parseSlicesAux : Nat → List Char → List JSeg
  | 0, _ => []
  | fuel + 1, cs =>
    match parseSliceGroup cs with
    | none => []
    | some (seg, rest) => seg :: parseSlicesAux fuel rest

def parseSlices (cs : List Char) : List JSeg := parseSlicesAux cs.length cs

/-- Parses one dot-separated element (`json.py:73-81`): the part before the first `[`
is a name entry (possibly empty), the bracket part is handed to the slice parser;
an element without `[` is a single name entry. -/
def parseElement (e : List Char) : List JSeg :=
  match e.findIdx? (· = '[') with
  | none => [.key e]
  | some i => .key (e.take i) :: parseSlices (e.drop i)

/-- `JSONPath._json_path_structure` (`json.py:63-82`): split the raw path on dots and
parse each element. -/
def jsonPathStructure (raw : List Char) : List JSeg :=
  (splitDots raw).flatMap parseElement

/-- Renders one slice component under Python truthiness (`json.py:134-146`):
a `None` or `0` component renders as the empty string. -/
def renderOptComp : Option Int → List Char
  | some v => if v ≠ 0 then intRepr v else []
  | none => []

/-- Renders one structure entry as `string_representation`'s loop appends it
(`json.py:133-151`). -/
def renderTail : JSeg → List Char
  | .key s => '.' :: s
  | .idx i => '[' :: (intRepr i ++ [']'])
  | .slc a b c =>
    '[' :: (renderOptComp a ++ ':' :: renderOptComp b ++
      (match c with
       | some v => if v ≠ 0 then ':' :: intRepr v else []
       | none => []) ++ [']'])

/-- `JSONPath.string_representation` (`json.py:126-153`).  `pop(0)` on an empty list
raises `IndexError`; a non-string head makes the string concatenations in the loop
fail (modelled as a single error constructor — the claims never render such a
structure). -/
def string_representation : List JSeg → Except PyErr (List Char)
  | [] => .error .indexError
  | .key s :: rest => .ok (s ++ rest.flatMap renderTail)
  | _ :: _ => .error .typeErrorHead

/-- A `JSONPath` instance (`json.py:8-21`): the raw text and the structure parsed from
it.  The constructor (`__init__`) always parses, so `json_path_structure =
jsonPathStructure raw_json_path` for every path built from text; paths are compared by
structure (`__eq__`, `json.py:161-162`). -/
structure JSONPath where
  raw_json_path : List Char
  json_path_structure : List JSeg
deriving DecidableEq, Repr

/-- `JSONPath(json_path)` — the constructor parses the raw text (`json.py:19-21`). -/
def JSONPath.parse (raw : List Char) : JSONPath := ⟨raw, jsonPathStructure raw⟩

/-- `JSONPath.from_json_path_structure` (`json.py:23-25`): render the structure, then
re-parse the rendered text through the constructor. -/
def from_json_path_structure (s : List JSeg) : Except PyErr JSONPath :=
  (string_representation s).map JSONPath.parse

/-- `JSONPath.is_relative` (`json.py:90-94`): first character of the raw text;
`IndexError` on an empty text. -/
def JSONPath.is_relative : JSONPath → Except PyErr Bool
  | ⟨[], _⟩ => .error .indexError
  | ⟨c :: _, _⟩ => .ok (c = '@')

/-- `JSONPath.is_absolute` (`json.py:84-88`). -/
def JSONPath.is_absolute : JSONPath → Except PyErr Bool
  | ⟨[], _⟩ => .error .indexError
  | ⟨c :: _, _⟩ => .ok (c = '$')

/-- Python `l[:n]` for a possibly negative `n`. -/
def pySliceUpto (n : Int) (l : List α) : List α :=
  if 0 ≤ n then l.take n.toNat else l.take (l.length - n.natAbs)

/-- Python `l[n:]` for a possibly negative `n`. -/
def pySliceFrom (n : Int) (l : List α) : List α :=
  if 0 ≤ n then l.drop n.toNat else l.drop (l.length - n.natAbs)

/-- `JSONPath.split` (`json.py:96-109`): `IndexError` unless `abs(n)` is in
`[1, length]`; a single-entry structure returns the entry re-parsed as a path together
with the bare relative root (a non-string single entry would make `JSONPath(entry)`
raise `AttributeError` in `split('.')`); otherwise both halves are rebuilt through
`from_json_path_structure`, the suffix prefixed with the relative marker. -/
def JSONPath.split (p : JSONPath) (n : Int) : Except PyErr (JSONPath × JSONPath) :=
  if ¬(1 ≤ n.natAbs ∧ n.natAbs ≤ p.json_path_structure.length) then .error .indexError
  else
    match p.json_path_structure with
    | [.key s] => .ok (JSONPath.parse s, JSONPath.parse ['@'])
    | [_] => .error .attributeError
    | segs =>
      match string_representation (pySliceUpto n segs),
            string_representation (.key ['@'] :: pySliceFrom n segs) with
      | .ok rp, .ok rs => .ok (JSONPath.parse rp, JSONPath.parse rs)
      | .error e, _ => .error e
      | .ok _, .error e => .error e

/-- `JSONPath.append` (`json.py:111-124`): requires the argument to be relative
(`ValueError` otherwise; the `is_relative` check itself raises `IndexError` on an empty
raw text), then concatenates raw texts (dropping the marker character) and structures
(dropping the marker entry).  The Python method mutates `self`; the embedding returns
the updated path. -/
def JSONPath.append (p relPath : JSONPath) : Except PyErr JSONPath :=
  match relPath.raw_json_path with
  | [] => .error .indexError
  | c :: cs =>
    if c = '@' then
      .ok ⟨p.raw_json_path ++ cs, p.json_path_structure ++ relPath.json_path_structure.tail⟩
    else .error .valueErrorNotRelative

/-- `get_item_from_json_path` (`json.py:190-209`).  The loop header at line 199 is
`for key_pos, key in enumerate(path._json_path_structure()):` — but
`_json_path_structure` is a `@staticmethod` whose required parameter is
`json_path_string` (`json.py:63-64`), so the zero-argument call through the instance
raises `TypeError: _json_path_structure() missing 1 required positional argument`
before the loop body (lines 200-209) can run.  The attribute holding the parsed
structure is `path.json_path_structure`, which the function does not use.  Every call
therefore raises, which is what the embedding returns. -/
def get_item_from_json_path (_path : JSONPath) (_json : Json) : Except PyErr Json :=
  .error .staticmethodMissingArg

/-- `write_item_in_path` (`json.py:212-246`).  Line 223 `in_path.split(-1)` runs
normally; line 224 `item_key = item_relative_path._json_path_structure()[-1]` then
performs the same zero-argument call of the `@staticmethod` as `get_item_from_json_path`
and raises `TypeError` outside any `try`, so nothing from line 225 on (the array
append, the parent lookup, the auto-vivification and the conflict check) can execute.
The embedding propagates the `split` error when the structure is degenerate and the
`TypeError` otherwise. -/
def write_item_in_path (_item : Json) (in_path : JSONPath) (_json : Json) :
    Except PyErr Json :=
  match in_path.split (-1) with
  | .error e => .error e
  | .ok _ => .error .staticmethodMissingArg

/-- A structure entry whose rendering re-parses to itself: a name without dot or
bracket characters, or an index access.  Slice entries do not round-trip (their falsy
components render as empty), which claim C4's counterexample exhibits. -/
def cleanSeg : JSeg → Bool
  | .key s => decide ('.' ∉ s) && decide ('[' ∉ s)
  | .idx _ => true
  | .slc _ _ _ => false

/-- A path as the `JSONPath` constructor builds it: the structure is the parse of the
raw text.  Every instance the Python code creates satisfies this. -/
def JSONPath.WF (p : JSONPath) : Prop := p = JSONPath.parse p.raw_json_path

/-- The bracket rendering of a run of index entries. -/
def bracketRun (run : List Int) : List Char := (run.map JSeg.idx).flatMap renderTail

/-- Value of a little-endian digit string. -/
def digitsValRev : List Char → Nat
  | [] => 0
  | c :: cs => charDigitVal c + 10 * digitsValRev cs

theorem isPyDigit_digitChar {d : Nat} (h : d < 10) : isPyDigit (digitChar d) = true := by
  interval_cases d <;> decide

theorem charDigitVal_digitChar {d : Nat} (h : d < 10) : charDigitVal (digitChar d) = d := by
  interval_cases d <;> decide

theorem digitsVal_append_singleton (xs : List Char) (c : Char) :
    digitsVal (xs ++ [c]) = 10 * digitsVal xs + charDigitVal c := by
  simp [digitsVal, List.foldl_append]

theorem digitsVal_reverse (l : List Char) : digitsVal l.reverse = digitsValRev l := by
  induction l with
  | nil => rfl
  | cons c cs ih =>
    simp [digitsValRev, List.reverse_cons, digitsVal_append_singleton, ih]
    omega

theorem natToRevDigitsAux_digits :
    ∀ fuel n, ∀ c ∈ natToRevDigitsAux fuel n, isPyDigit c = true := by
  intro fuel
  induction fuel with
  | zero => intro n c hc; simp [natToRevDigitsAux] at hc
  | succ f ih =>
    intro n c hc
    by_cases hn : n = 0
    · simp [natToRevDigitsAux, hn] at hc
    · simp [natToRevDigitsAux, hn] at hc
      rcases hc with h | h
      · subst h; exact isPyDigit_digitChar (Nat.mod_lt _ (by norm_num))
      · exact ih _ _ h

theorem natToRevDigitsAux_val :
    ∀ fuel n, n ≤ fuel → digitsValRev (natToRevDigitsAux fuel n) = n := by
  intro fuel
  induction fuel with
  | zero => intro n hn; interval_cases n; simp [natToRevDigitsAux, digitsValRev]
  | succ f ih =>
    intro n hn
    by_cases hz : n = 0
    · simp [natToRevDigitsAux, hz, digitsValRev]
    · have hlt : n / 10 < n := Nat.div_lt_self (Nat.pos_of_ne_zero hz) (by norm_num)
      have hle : n / 10 ≤ f := by omega
      simp [natToRevDigitsAux, hz, digitsValRev, ih _ hle,
        charDigitVal_digitChar (Nat.mod_lt _ (show 0 < 10 by norm_num))]
      omega

theorem natToRevDigitsAux_ne_nil {n : Nat} (h : 0 < n) :
    natToRevDigitsAux n n ≠ [] := by
  cases n with
  | zero => omega
  | succ m => simp [natToRevDigitsAux]

theorem natRepr_all_digits (n : Nat) : ∀ c ∈ natRepr n, isPyDigit c = true := by
  intro c hc
  by_cases hz : n = 0
  · simp [natRepr, hz] at hc; subst hc; decide
  · simp [natRepr, hz] at hc
    exact natToRevDigitsAux_digits _ _ _ hc

theorem natRepr_ne_nil (n : Nat) : natRepr n ≠ [] := by
  by_cases hz : n = 0
  · simp [natRepr, hz]
  · simp [natRepr, hz, natToRevDigitsAux_ne_nil (Nat.pos_of_ne_zero hz)]

theorem digitsVal_natRepr (n : Nat) : digitsVal (natRepr n) = n := by
  by_cases hz : n = 0
  · simp [natRepr, hz]; decide
  · simp [natRepr, hz, digitsVal_reverse, natToRevDigitsAux_val n n le_rfl]

theorem intRepr_chars (i : Int) : ∀ c ∈ intRepr i, isPyDigit c = true ∨ c = '-' := by
  intro c hc
  cases i with
  | ofNat n => exact Or.inl (natRepr_all_digits n c hc)
  | negSucc m =>
    simp [intRepr] at hc
    rcases hc with h | h
    · exact Or.inr h
    · exact Or.inl (natRepr_all_digits _ c h)

theorem takeWhile_append_of (p : Char → Bool) :
    ∀ (as bs : List Char), (∀ a ∈ as, p a = true) →
      (∀ b, bs.head? = some b → p b = false) →
      (as ++ bs).takeWhile p = as ∧ (as ++ bs).dropWhile p = bs := by
  intro as
  induction as with
  | nil =>
    intro bs _ hb
    cases bs with
    | nil => simp
    | cons b bs' => simp [List.takeWhile_cons, List.dropWhile_cons, hb b rfl]
  | cons a as' ih =>
    intro bs ha hb
    have hpa : p a = true := ha a (by simp)
    have := ih bs (fun x hx => ha x (by simp [hx])) hb
    simp [List.takeWhile_cons, List.dropWhile_cons, hpa, this.1, this.2]

theorem readSignedInt_intRepr (i : Int) (bs : List Char)
    (hb : ∀ b, bs.head? = some b → isPyDigit b = false) :
    readSignedInt (intRepr i ++ bs) = some (i, bs) := by
  cases i with
  | ofNat n =>
    have hall := natRepr_all_digits n
    have htd := takeWhile_append_of isPyDigit (natRepr n) bs hall hb
    obtain ⟨c, cs, hcons⟩ : ∃ c cs, natRepr n = c :: cs := by
      cases h : natRepr n with
      | nil => exact absurd h (natRepr_ne_nil n)
      | cons c cs => exact ⟨c, cs, rfl⟩
    have hcd : isPyDigit c = true := hall c (by simp [hcons])
    have hcm : c ≠ '-' := by
      intro h; rw [h] at hcd; simp [isPyDigit] at hcd
    rw [show intRepr (Int.ofNat n) = natRepr n from rfl, hcons, List.cons_append]
    rw [readSignedInt]
    simp only [if_neg hcm]
    rw [← List.cons_append, ← hcons, htd.1, htd.2]
    simp [natRepr_ne_nil n, digitsVal_natRepr]
  | negSucc m =>
    have hall := natRepr_all_digits (m + 1)
    have htd := takeWhile_append_of isPyDigit (natRepr (m + 1)) bs hall hb
    rw [show intRepr (Int.negSucc m) = '-' :: natRepr (m + 1) from rfl, List.cons_append]
    rw [readSignedInt]
    simp only [if_pos rfl]
    rw [htd.1, htd.2]
    simp [natRepr_ne_nil (m + 1), digitsVal_natRepr, Int.negSucc_eq]

theorem parseSliceGroup_idx (i : Int) (bs : List Char) :
    parseSliceGroup (renderTail (.idx i) ++ bs) = some (.idx i, bs) := by
  have h : renderTail (.idx i) ++ bs = '[' :: (intRepr i ++ (']' :: bs)) := by
    simp [renderTail]
  rw [h, parseSliceGroup]
  rw [readSignedInt_intRepr i (']' :: bs) (by intro b hb; simp at hb; subst hb; decide)]
  simp [mkSliceSeg, truthyOpt]

theorem findIdx_bracket (p : Char → Bool) :
    ∀ (k : List Char) (rest : List Char) (b : Char), (∀ c ∈ k, p c = false) → p b = true →
      List.findIdx? p (k ++ b :: rest) = some k.length := by
  intro k
  induction k with
  | nil => intro rest b _ hb; simp [List.findIdx?_cons, hb]
  | cons c cs ih =>
    intro rest b hk hb
    have hc : p c = false := hk c (by simp)
    simp [List.findIdx?_cons, hc, ih rest b (fun x hx => hk x (by simp [hx])) hb]

theorem renderTail_idx_length (i : Int) : 1 ≤ (renderTail (.idx i)).length := by
  simp [renderTail]

theorem bracketRun_nil : bracketRun [] = [] := rfl

theorem bracketRun_cons (i : Int) (run : List Int) :
    bracketRun (i :: run) = renderTail (.idx i) ++ bracketRun run := by
  simp [bracketRun]

theorem bracketRun_append (r1 r2 : List Int) :
    bracketRun (r1 ++ r2) = bracketRun r1 ++ bracketRun r2 := by
  simp [bracketRun]

theorem parseSlicesAux_idxRun :
    ∀ (run : List Int) (fuel : Nat), (bracketRun run).length ≤ fuel →
      parseSlicesAux fuel (bracketRun run) = run.map JSeg.idx := by
  intro run
  induction run with
  | nil => intro fuel _; cases fuel <;> simp [parseSlicesAux, parseSliceGroup, bracketRun]
  | cons i run' ih =>
    intro fuel hf
    rw [bracketRun_cons] at hf ⊢
    have hlen : 1 ≤ (renderTail (.idx i)).length := renderTail_idx_length i
    cases fuel with
    | zero =>
      rw [List.length_append] at hf
      omega
    | succ f =>
      rw [parseSlicesAux, parseSliceGroup_idx i (bracketRun run')]
      have hr : (bracketRun run').length ≤ f := by
        rw [List.length_append] at hf
        omega
      show JSeg.idx i :: parseSlicesAux f (bracketRun run') = (i :: run').map JSeg.idx
      rw [ih f hr, List.map_cons]

theorem parseSlices_idxRun (run : List Int) :
    parseSlices (bracketRun run) = run.map JSeg.idx :=
  parseSlicesAux_idxRun run _ le_rfl

theorem parseElement_pure_key (k : List Char) (h : '[' ∉ k) : parseElement k = [.key k] := by
  have : List.findIdx? (· = '[') k = none := by
    rw [List.findIdx?_eq_none_iff]
    intro c hc
    show decide (c = '[') = false
    exact decide_eq_false (fun heq => h (heq ▸ hc))
  simp [parseElement, this]

theorem parseElement_key_run (k : List Char) (run : List Int) (h : '[' ∉ k) :
    parseElement (k ++ bracketRun run) = .key k :: run.map JSeg.idx := by
  cases run with
  | nil => simp [bracketRun_nil, parseElement_pure_key k h]
  | cons i run' =>
    have hbr : bracketRun (i :: run') = '[' :: (intRepr i ++ [']'] ++ bracketRun run') := by
      rw [bracketRun_cons]
      simp [renderTail]
    have hfind : List.findIdx? (· = '[') (k ++ bracketRun (i :: run')) = some k.length := by
      rw [hbr]
      exact findIdx_bracket (· = '[') k (intRepr i ++ [']'] ++ bracketRun run') '['
        (fun c hc => by
          simp only [decide_eq_false_iff_not]
          intro hcc; exact h (hcc ▸ hc))
        (by simp)
    simp only [parseElement, hfind]
    rw [List.take_left, List.drop_left, parseSlices_idxRun]

theorem splitDots_ne_nil : ∀ cs : List Char, splitDots cs ≠ [] := by
  intro cs
  induction cs with
  | nil => simp [splitDots]
  | cons c rest ih =>
    rw [splitDots]
    cases h : splitDots rest with
    | nil => exact absurd h ih
    | cons e es => by_cases hc : c = '.' <;> simp [hc]

theorem splitDots_no_dot : ∀ cs : List Char, '.' ∉ cs → splitDots cs = [cs] := by
  intro cs
  induction cs with
  | nil => intro _; rfl
  | cons c rest ih =>
    intro h
    have hc : c ≠ '.' := fun hcc => h (by simp [hcc])
    have hrest : '.' ∉ rest := fun hin => h (by simp [hin])
    rw [splitDots, ih hrest]
    simp [hc]

theorem splitDots_append_dot : ∀ (xs ys : List Char), '.' ∉ xs →
    splitDots (xs ++ '.' :: ys) = xs :: splitDots ys := by
  intro xs
  induction xs with
  | nil =>
    intro ys _
    simp only [List.nil_append]
    rw [splitDots]
    cases h : splitDots ys with
    | nil => exact absurd h (splitDots_ne_nil ys)
    | cons e es => simp
  | cons x xs' ih =>
    intro ys h
    have hx : x ≠ '.' := fun hcc => h (by simp [hcc])
    have hxs : '.' ∉ xs' := fun hin => h (by simp [hin])
    simp only [List.cons_append]
    rw [splitDots, ih ys hxs]
    simp [hx]

theorem renderOptComp_chars (o : Option Int) :
    ∀ c ∈ renderOptComp o, isPyDigit c = true ∨ c = '-' := by
  intro c hc
  cases o with
  | none => simp [renderOptComp] at hc
  | some v =>
    simp only [renderOptComp] at hc
    by_cases hv : v ≠ 0
    · rw [if_pos hv] at hc; exact intRepr_chars v c hc
    · rw [if_neg hv] at hc; simp at hc

theorem renderOptComp_no_dot (o : Option Int) : '.' ∉ renderOptComp o := by
  intro hin
  rcases renderOptComp_chars o _ hin with hd | hd
  · exact absurd hd (by decide)
  · exact absurd hd (by decide)

theorem intRepr_no_dot (i : Int) : '.' ∉ intRepr i := by
  intro hin
  rcases intRepr_chars i _ hin with hd | hd
  · exact absurd hd (by decide)
  · exact absurd hd (by decide)

theorem renderTail_no_dot (seg : JSeg) (h : ∀ s, seg ≠ .key s) : '.' ∉ renderTail seg := by
  cases seg with
  | key s => exact absurd rfl (h s)
  | idx i =>
    simp only [renderTail]
    intro hmem
    simp only [List.mem_cons, List.mem_append] at hmem
    rcases hmem with h1 | h1 | h1
    · exact absurd h1 (by decide)
    · exact intRepr_no_dot i h1
    · simp at h1
  | slc a b c =>
    simp only [renderTail]
    intro hmem
    have hstep : '.' ∉ (match c with
        | some v => if v ≠ 0 then ':' :: intRepr v else []
        | none => ([] : List Char)) := by
      cases c with
      | none => simp
      | some v =>
        by_cases hv : v ≠ 0
        · simp only [if_pos hv]
          intro hin
          simp only [List.mem_cons] at hin
          rcases hin with h1 | h1
          · exact absurd h1 (by decide)
          · exact intRepr_no_dot v h1
        · simp only [if_neg hv]
          simp
    simp only [List.mem_cons, List.mem_append, List.mem_singleton, or_assoc] at hmem
    rcases hmem with h1 | h1 | h1 | h1 | h1 | h1 <;>
      first
        | exact absurd h1 (by decide)
        | exact renderOptComp_no_dot a h1
        | exact renderOptComp_no_dot b h1
        | exact hstep h1

/-- The dot-separated elements that rendering a structure produces, carried out with an
accumulator for the element currently being extended (name entries start a new element,
bracket entries extend the current one). -/
def elemsOf (acc : List Char) : List JSeg → List (List Char)
  | [] => [acc]
  | .key t :: r => acc :: elemsOf t r
  | .idx i :: r => elemsOf (acc ++ renderTail (.idx i)) r
  | .slc a b c :: r => elemsOf (acc ++ renderTail (.slc a b c)) r

theorem cleanSeg_key_iff (s : List Char) :
    cleanSeg (.key s) = true ↔ ('.' ∉ s ∧ '[' ∉ s) := by
  simp [cleanSeg]

theorem splitDots_render :
    ∀ (rest : List JSeg) (acc : List Char),
      (∀ s, JSeg.key s ∈ rest → '.' ∉ s) → '.' ∉ acc →
      splitDots (acc ++ rest.flatMap renderTail) = elemsOf acc rest := by
  intro rest
  induction rest with
  | nil =>
    intro acc _ hacc
    simp only [List.flatMap_nil, List.append_nil, elemsOf]
    exact splitDots_no_dot acc hacc
  | cons seg r ih =>
    intro acc hkeys hacc
    cases seg with
    | key t =>
      have hshape : acc ++ (JSeg.key t :: r).flatMap renderTail
          = acc ++ '.' :: (t ++ r.flatMap renderTail) := by
        simp [renderTail]
      rw [hshape, splitDots_append_dot acc _ hacc, elemsOf]
      rw [ih t (fun s hs => hkeys s (by simp [hs])) (hkeys t (by simp))]
    | idx i =>
      have hshape : acc ++ (JSeg.idx i :: r).flatMap renderTail
          = (acc ++ renderTail (.idx i)) ++ r.flatMap renderTail := by
        simp
      rw [hshape, elemsOf]
      have hnd : '.' ∉ acc ++ renderTail (.idx i) := by
        intro hin
        rcases List.mem_append.mp hin with hin | hin
        · exact hacc hin
        · exact renderTail_no_dot (.idx i) (by intro s hs; cases hs) hin
      exact ih _ (fun s hs => hkeys s (by simp [hs])) hnd
    | slc a b c =>
      have hshape : acc ++ (JSeg.slc a b c :: r).flatMap renderTail
          = (acc ++ renderTail (.slc a b c)) ++ r.flatMap renderTail := by
        simp
      rw [hshape, elemsOf]
      have hnd : '.' ∉ acc ++ renderTail (.slc a b c) := by
        intro hin
        rcases List.mem_append.mp hin with hin | hin
        · exact hacc hin
        · exact renderTail_no_dot (.slc a b c) (by intro s hs; cases hs) hin
      exact ih _ (fun s hs => hkeys s (by simp [hs])) hnd

theorem flatMap_elemsOf :
    ∀ (rest : List JSeg) (k : List Char) (run : List Int),
      '[' ∉ k → (∀ seg ∈ rest, cleanSeg seg = true) →
      (elemsOf (k ++ bracketRun run) rest).flatMap parseElement
        = .key k :: (run.map JSeg.idx ++ rest) := by
  intro rest
  induction rest with
  | nil =>
    intro k run hk _
    simp only [elemsOf, List.flatMap_cons, List.flatMap_nil, List.append_nil]
    rw [parseElement_key_run k run hk]
  | cons seg r ih =>
    intro k run hk hclean
    cases seg with
    | key t =>
      simp only [elemsOf, List.flatMap_cons]
      rw [parseElement_key_run k run hk]
      have ht := (cleanSeg_key_iff t).mp (hclean (.key t) (by simp))
      have := ih t [] ht.2 (fun s hs => hclean s (by simp [hs]))
      rw [bracketRun_nil, List.append_nil] at this
      rw [this]
      simp
    | idx i =>
      have hstep : elemsOf (k ++ bracketRun run) (JSeg.idx i :: r)
          = elemsOf (k ++ bracketRun (run ++ [i])) r := by
        rw [elemsOf, bracketRun_append, ← List.append_assoc]
        simp [bracketRun]
      rw [hstep, ih k (run ++ [i]) hk (fun s hs => hclean s (by simp [hs]))]
      simp
    | slc a b c =>
      have := hclean (.slc a b c) (by simp)
      simp [cleanSeg] at this

/-- Round trip for clean structures: parsing the rendering of a structure whose head is
a clean name and whose entries are clean gives back exactly the structure. -/
theorem jsonPathStructure_render (k : List Char) (rest : List JSeg)
    (hk1 : '.' ∉ k) (hk2 : '[' ∉ k) (hrest : ∀ seg ∈ rest, cleanSeg seg = true) :
    jsonPathStructure (k ++ rest.flatMap renderTail) = .key k :: rest := by
  unfold jsonPathStructure
  have hkeys : ∀ s, JSeg.key s ∈ rest → '.' ∉ s := by
    intro s hs
    exact ((cleanSeg_key_iff s).mp (hrest _ hs)).1
  rw [splitDots_render rest k hkeys hk1]
  have := flatMap_elemsOf rest k [] hk2 hrest
  rw [bracketRun_nil, List.append_nil] at this
  rw [this]
  simp

/-- Every parsed structure begins with a name entry. -/
theorem jsonPathStructure_head (raw : List Char) :
    ∃ s rest, jsonPathStructure raw = JSeg.key s :: rest := by
  unfold jsonPathStructure
  obtain ⟨e, es, hsplit⟩ : ∃ e es, splitDots raw = e :: es := by
    cases h : splitDots raw with
    | nil => exact absurd h (splitDots_ne_nil raw)
    | cons e es => exact ⟨e, es, rfl⟩
  rw [hsplit, List.flatMap_cons]
  cases h : e.findIdx? (· = '[') with
  | none => exact ⟨e, es.flatMap parseElement, by simp [parseElement, h]⟩
  | some i =>
    exact ⟨e.take i, parseSlices (e.drop i) ++ es.flatMap parseElement,
      by simp [parseElement, h]⟩

theorem jsonPathStructure_clean_key (s : List Char) (h1 : '.' ∉ s) (h2 : '[' ∉ s) :
    jsonPathStructure s = [.key s] := by
  have := jsonPathStructure_render s [] h1 h2 (by simp)
  simpa using this

theorem string_representation_key (s : List Char) (rest : List JSeg) :
    string_representation (.key s :: rest) = .ok (s ++ rest.flatMap renderTail) := rfl

/-- Splitting a clean multi-entry path at a position with a non-empty prefix, then
recombining with `append`, restores the structure.  This is the engine behind the
amended claim C4. -/
theorem split_append_restores (p : JSONPath) (k : Int)
    (hwf : p.WF)
    (hclean : ∀ seg ∈ p.json_path_structure, cleanSeg seg = true)
    (hvalid : 1 ≤ k.natAbs ∧ k.natAbs ≤ p.json_path_structure.length)
    (hpre : 0 < k ∨ k.natAbs < p.json_path_structure.length) :
    ∃ pre suf r, p.split k = .ok (pre, suf) ∧ pre.append suf = .ok r ∧
      r.json_path_structure = p.json_path_structure := by
  obtain ⟨s0, tail, hstruct⟩ : ∃ s0 tail, p.json_path_structure = .key s0 :: tail := by
    rw [hwf]
    exact jsonPathStructure_head _
  have hs0clean := (cleanSeg_key_iff s0).mp (hclean _ (by rw [hstruct]; simp))
  have hguard : 1 ≤ k.natAbs ∧ k.natAbs ≤ (JSeg.key s0 :: tail).length := by
    rw [hstruct] at hvalid; exact hvalid
  cases tail with
  | nil =>
    have hsplit1 : p.split k = .ok (JSONPath.parse s0, JSONPath.parse ['@']) := by
      rw [JSONPath.split, hstruct]
      rw [if_neg (by push_neg; exact hguard)]
    have happend : (JSONPath.parse s0).append (JSONPath.parse ['@'])
        = .ok ⟨s0 ++ [], jsonPathStructure s0 ++ (jsonPathStructure ['@']).tail⟩ := rfl
    refine ⟨_, _, _, hsplit1, happend, ?_⟩
    show jsonPathStructure s0 ++ (jsonPathStructure ['@']).tail = p.json_path_structure
    rw [jsonPathStructure_clean_key s0 hs0clean.1 hs0clean.2, hstruct]
    rfl
  | cons t ts =>
    have hm1 : 1 ≤ (if 0 ≤ k then k.toNat else (JSeg.key s0 :: t :: ts).length - k.natAbs) := by
      rcases hpre with h | h
      · rw [if_pos (le_of_lt h)]
        omega
      · rw [hstruct] at h
        by_cases h0 : 0 ≤ k
        · rw [if_pos h0]
          have := hguard.1
          omega
        · rw [if_neg h0]
          simp only [List.length_cons] at h ⊢
          omega
    set m : Nat := if 0 ≤ k then k.toNat else (JSeg.key s0 :: t :: ts).length - k.natAbs
      with hm
    have hupto : pySliceUpto k (JSeg.key s0 :: t :: ts) = (JSeg.key s0 :: t :: ts).take m := by
      rw [pySliceUpto, hm]
      by_cases h0 : 0 ≤ k <;> simp [h0]
    have hfrom : pySliceFrom k (JSeg.key s0 :: t :: ts) = (JSeg.key s0 :: t :: ts).drop m := by
      rw [pySliceFrom, hm]
      by_cases h0 : 0 ≤ k <;> simp [h0]
    have htake : (JSeg.key s0 :: t :: ts).take m = JSeg.key s0 :: (t :: ts).take (m - 1) := by
      cases hmm : m with
      | zero => omega
      | succ m' => simp
    have hdrop : (JSeg.key s0 :: t :: ts).drop m = (t :: ts).drop (m - 1) := by
      cases hmm : m with
      | zero => omega
      | succ m' => simp
    have hcleantake : ∀ seg ∈ (t :: ts).take (m - 1), cleanSeg seg = true := fun seg hs =>
      hclean seg (by rw [hstruct]; exact List.mem_cons_of_mem _ (List.mem_of_mem_take hs))
    have hcleandrop : ∀ seg ∈ (t :: ts).drop (m - 1), cleanSeg seg = true := fun seg hs =>
      hclean seg (by rw [hstruct]; exact List.mem_cons_of_mem _ (List.mem_of_mem_drop hs))
    have hpreParse : jsonPathStructure (s0 ++ ((t :: ts).take (m - 1)).flatMap renderTail)
        = JSeg.key s0 :: (t :: ts).take (m - 1) :=
      jsonPathStructure_render s0 _ hs0clean.1 hs0clean.2 hcleantake
    have hsufParse : jsonPathStructure (['@'] ++ ((t :: ts).drop (m - 1)).flatMap renderTail)
        = JSeg.key ['@'] :: (t :: ts).drop (m - 1) :=
      jsonPathStructure_render ['@'] _ (by decide) (by decide) hcleandrop
    have hsplit : p.split k = .ok
        (JSONPath.parse (s0 ++ ((t :: ts).take (m - 1)).flatMap renderTail),
         JSONPath.parse (['@'] ++ ((t :: ts).drop (m - 1)).flatMap renderTail)) := by
      rw [JSONPath.split, hstruct]
      rw [if_neg (by push_neg; exact hguard)]
      show (match string_representation (pySliceUpto k (JSeg.key s0 :: t :: ts)),
              string_representation (.key ['@'] :: pySliceFrom k (JSeg.key s0 :: t :: ts)) with
          | .ok rp, .ok rs => Except.ok (JSONPath.parse rp, JSONPath.parse rs)
          | .error e, _ => Except.error e
          | .ok _, .error e => Except.error e) = _
      rw [hupto, hfrom, htake, hdrop, string_representation_key, string_representation_key]
    have happend : (JSONPath.parse (s0 ++ ((t :: ts).take (m - 1)).flatMap renderTail)).append
          (JSONPath.parse (['@'] ++ ((t :: ts).drop (m - 1)).flatMap renderTail))
        = .ok ⟨(s0 ++ ((t :: ts).take (m - 1)).flatMap renderTail)
                  ++ ((t :: ts).drop (m - 1)).flatMap renderTail,
               jsonPathStructure (s0 ++ ((t :: ts).take (m - 1)).flatMap renderTail)
                  ++ (jsonPathStructure
                        (['@'] ++ ((t :: ts).drop (m - 1)).flatMap renderTail)).tail⟩ := rfl
    refine ⟨_, _, _, hsplit, happend, ?_⟩
    show jsonPathStructure (s0 ++ ((t :: ts).take (m - 1)).flatMap renderTail)
        ++ (jsonPathStructure (['@'] ++ ((t :: ts).drop (m - 1)).flatMap renderTail)).tail
      = p.json_path_structure
    rw [hpreParse, hsufParse, hstruct]
    show JSeg.key s0 :: ((t :: ts).take (m - 1) ++ (t :: ts).drop (m - 1))
      = JSeg.key s0 :: t :: ts
    rw [List.take_append_drop]

/-- `XMLNodeType` (`xml.py:49-53`). -/
inductive XMLNodeType where
  | VALUE : XMLNodeType
  | SEQUENCE : XMLNodeType
  | ATTRIBUTE : XMLNodeType
  | ELEMENT : XMLNodeType
deriving DecidableEq, Repr

/-- `XPath` (`xml.py:316-327`): wraps the raw text; equality and hashing compare the
raw text (`__eq__`, `xml.py:517-518`). -/
structure XPath where
  raw_xpath : List Char
deriving DecidableEq, Repr

/-- `XPath.is_descendant_of` (`xml.py:347-355`):
`f'{ancestor.raw_xpath}/' in self.raw_xpath and not self == ancestor` — Python `in` is
substring containment anywhere in the text, not a prefix test. -/
def XPath.is_descendant_of (self ancestor : XPath) : Bool :=
  decide ((ancestor.raw_xpath ++ ['/']) <:+: self.raw_xpath) && !(self == ancestor)

/-- `XPath.relative_to` with `in_place=False` (`xml.py:430-446`):
`re.sub(r'^{escaped ancestor}', '.', raw)` replaces one leading occurrence of the
ancestor text by a dot and leaves the text unchanged when the ancestor is not a
leading occurrence. -/
def XPath.relative_to (self ancestor : XPath) : XPath :=
  if ancestor.raw_xpath <+: self.raw_xpath then
    ⟨'.' :: self.raw_xpath.drop ancestor.raw_xpath.length⟩
  else self

/-- An `XMLNode` (`xml.py:56-74`) or `XMLSequenceNode` (`xml.py:196-231`): a sequence
node carries its item sub-nodes and always has node type `SEQUENCE`. -/
inductive XNode where
  | node : XPath → XMLNodeType → XNode
  | seq : XPath → List XNode → XNode

def XNode.path : XNode → XPath
  | .node p _ => p
  | .seq p _ => p

def XNode.node_type : XNode → XMLNodeType
  | .node _ t => t
  | .seq _ _ => .SEQUENCE

/-- `XMLNode.is_descendant_of` (`xml.py:95-102`): delegates to the XPath relation. -/
def XNode.is_descendant_of (self ancestor : XNode) : Bool :=
  self.path.is_descendant_of ancestor.path

/-- `XMLNode.is_leaf` (`xml.py:104-123`): an attribute node is a leaf outright; any
other node is a leaf when no non-attribute node of the tree is its descendant. -/
def XNode.is_leaf (self : XNode) (tree : List XNode) : Bool :=
  if self.node_type = XMLNodeType.ATTRIBUTE then true
  else tree.all fun tn =>
    if tn.node_type = XMLNodeType.ATTRIBUTE then true
    else !(tn.is_descendant_of self)

/-- `XMLNode.relative_to` / `XMLSequenceNode.relative_to` with `in_place=False`
(`xml.py:76-93, 212-231`): a plain node rebuilds itself with the relativised path; a
sequence node rebuilds through the `XMLSequenceNode` constructor, which re-relativises
every sub-node against the rebuilt sequence node (`xml.py:204-210`). -/
def XNode.relative_to (ancestor : XPath) : XNode → XNode
  | .node p t => .node (p.relative_to ancestor) t
  | .seq p subs =>
    .seq (p.relative_to ancestor)
      (subs.attach.map fun s => XNode.relative_to (p.relative_to ancestor) s.1)
termination_by n => sizeOf n
decreasing_by
  have := List.sizeOf_lt_of_mem s.2
  simp only [XNode.seq.sizeOf_spec]
  omega

/-- The `XMLSequenceNode(xpath, sub_nodes)` constructor (`xml.py:204-210`): keeps the
given path and stores every sub-node relativised against it. -/
def mkXMLSequenceNode (xpath : XPath) (sub_nodes : List XNode) : XNode :=
  .seq xpath (sub_nodes.map (XNode.relative_to xpath))

/-- A non-empty list has an element maximising a natural-valued function. -/
theorem exists_max_on {α : Type} (f : α → Nat) :
    ∀ (l : List α), l ≠ [] → ∃ a ∈ l, ∀ b ∈ l, f b ≤ f a := by
  intro l
  induction l with
  | nil => intro h; exact absurd rfl h
  | cons x xs ih =>
    intro _
    cases xs with
    | nil => exact ⟨x, by simp, by simp⟩
    | cons y ys =>
      obtain ⟨a, ha, hmax⟩ := ih (by simp)
      by_cases hc : f x ≤ f a
      · exact ⟨a, by simp [ha], by
          intro b hb
          rcases List.mem_cons.mp hb with hb | hb
          · exact hb ▸ hc
          · exact hmax b hb⟩
      · exact ⟨x, by simp, by
          intro b hb
          rcases List.mem_cons.mp hb with hb | hb
          · exact hb ▸ le_rfl
          · exact le_trans (hmax b hb) (le_of_not_le hc)⟩

/-- In a non-empty node list some node is a leaf with respect to the list: any node
of maximal path length qualifies, since a descendant is strictly longer. -/
theorem exists_is_leaf (l : List XNode) (h : l ≠ []) :
    ∃ nd ∈ l, nd.is_leaf l = true := by
  obtain ⟨a, ha, hmax⟩ := exists_max_on (fun nd : XNode => nd.path.raw_xpath.length) l h
  refine ⟨a, ha, ?_⟩
  rw [XNode.is_leaf]
  by_cases hattr : a.node_type = XMLNodeType.ATTRIBUTE
  · rw [if_pos hattr]
  · rw [if_neg hattr]
    rw [List.all_eq_true]
    intro tn htn
    by_cases htattr : tn.node_type = XMLNodeType.ATTRIBUTE
    · rw [if_pos htattr]
    · rw [if_neg htattr]
      simp only [Bool.not_eq_true']
      rw [XNode.is_descendant_of, XPath.is_descendant_of]
      by_cases hinf : (a.path.raw_xpath ++ ['/']) <:+: tn.path.raw_xpath
      · exfalso
        have hlen := hinf.length_le
        rw [List.length_append] at hlen
        have := hmax tn htn
        simp at hlen this
        omega
      · simp [hinf]

/-- Filtering out the selected leaves strictly shrinks a non-empty candidate list. -/
theorem trimmed_lt (l : List XNode) (h : l ≠ []) :
    (l.filter fun nd => !(nd.is_leaf l)).length < l.length := by
  obtain ⟨nd, hmem, hleaf⟩ := exists_is_leaf l h
  exact List.length_filter_lt_length_iff_exists.mpr ⟨nd, hmem, by simp [hleaf]⟩

/-- `build_sequence_tree` (`xml.py:597-622`): each pass selects every pending sequence
candidate that is a leaf with respect to the pending candidate list, materialises each
selected candidate as an `XMLSequenceNode` whose sub-nodes are the pending leaves that
are its descendants, removes the selected candidates and the matched leaves, appends
the new sequence nodes to the leaf list and recurses; an empty candidate list returns
both lists unchanged.  Selection is a per-element property, so removing by collected
index (the Python `trimmed_*_indices` lists) is filtering by the same predicate.
Termination: a candidate of maximal path length is always a leaf, so each pass
strictly shrinks the candidate list (`trimmed_lt`). -/
def build_sequence_tree : List XNode → List XNode → List XNode × List XNode
  | [], leaf_nodes => ([], leaf_nodes)
  | s :: ss, leaf_nodes =>
    build_sequence_tree
      ((s :: ss).filter fun nd => !(nd.is_leaf (s :: ss)))
      ((leaf_nodes.filter fun lf =>
          !((s :: ss).any fun nd => nd.is_leaf (s :: ss) && lf.is_descendant_of nd)) ++
        ((s :: ss).filter fun nd => nd.is_leaf (s :: ss)).map fun nd =>
          mkXMLSequenceNode nd.path (leaf_nodes.filter fun lf => lf.is_descendant_of nd))
termination_by seqs _ => seqs.length
decreasing_by
  exact trimmed_lt (s :: ss) (by simp)

/-- Every run of `build_sequence_tree` drains the candidate list completely. -/
theorem build_sequence_tree_fst_nil :
    ∀ (seqs leaves : List XNode), (build_sequence_tree seqs leaves).1 = [] := by
  have key : ∀ (n : Nat) (seqs : List XNode), seqs.length ≤ n →
      ∀ leaves, (build_sequence_tree seqs leaves).1 = [] := by
    intro n
    induction n with
    | zero =>
      intro seqs hle leaves
      cases seqs with
      | nil => rw [build_sequence_tree]
      | cons a as => simp at hle
    | succ n ih =>
      intro seqs hle leaves
      cases seqs with
      | nil => rw [build_sequence_tree]
      | cons s ss =>
        rw [build_sequence_tree]
        apply ih
        have := trimmed_lt (s :: ss) (by simp)
        simp only [List.length_cons] at hle this ⊢
        omega
  exact fun seqs leaves => key seqs.length seqs le_rfl leaves

/-- `JSONNodeType` of the newer json-utilities revision, with the upper-case members
`mapping.py` references (`STRING`, `INTEGER`, `NUMBER`, `OBJECT`, `ARRAY`, `BOOLEAN`,
`NULL`, `INFER`).  Modelled from the spec: SinkKind, spec.md section 3 (the enum
itself is absent from the `json.py` revision under `src/`). -/
inductive JSONNodeType where
  | STRING : JSONNodeType
  | INTEGER : JSONNodeType
  | NUMBER : JSONNodeType
  | OBJECT : JSONNodeType
  | ARRAY : JSONNodeType
  | BOOLEAN : JSONNodeType
  | NULL : JSONNodeType
  | INFER : JSONNodeType
deriving DecidableEq, Repr

/-- `JSONNode` (`json.py:178-187`): a sink path, kept as raw text and parsed with
`JSONPath(...)` at each use site, and the sink node type. -/
structure JSONNode where
  path : List Char
  node_type : JSONNodeType
deriving DecidableEq, Repr

/-- `XMLNodeToJSONNode` (`mapping.py:86-113`): the source node, the sink node and the
ordered item mappings.  The `transform` attribute is omitted: `XMLNodeToJSONNode.map`
and `_map_input` never consult it. -/
inductive XMLNodeToJSONNode where
  | mk : XNode → JSONNode → List XMLNodeToJSONNode → XMLNodeToJSONNode

def XMLNodeToJSONNode.from_xml_node : XMLNodeToJSONNode → XNode
  | .mk f _ _ => f

def XMLNodeToJSONNode.to_json_node : XMLNodeToJSONNode → JSONNode
  | .mk _ t _ => t

def XMLNodeToJSONNode.item_mappings : XMLNodeToJSONNode → List XMLNodeToJSONNode
  | .mk _ _ i => i

/-- The parsed-document interface the interpreter consumes.  Modelled from the spec:
spec.md section 6 declares find-first-matching-node, find-all-matching-nodes and the
per-node text/attribute accessors as contracts of the external XML library (`lxml`),
out of scope of the core; a concrete instance supplies them per scenario.  `α` is the
element type; `find`/`findall` receive the path text handed to `lxml`. -/
structure EtreeOps (α : Type) where
  find : α → List Char → Option α
  findall : α → List Char → List α
  text : α → Option (List Char)
  attrib : α → List Char → Option (List Char)

/-- Python whitespace for `str.strip` and the `\s` class, restricted to the
characters that can occur in the modelled texts. -/
def isPySpace (c : Char) : Bool := c = ' ' || c = '\t' || c = '\n' || c = '\r'

/-- Python `str.strip()`. -/
def pyStrip (s : List Char) : List Char :=
  ((s.dropWhile isPySpace).reverse.dropWhile isPySpace).reverse

/-- `re.sub(r"^\s*$", "", s)` (`mapping.py:152`): a whitespace-only text (the empty
text included) becomes empty, any other text is unchanged. -/
def emptyNormalized (s : List Char) : List Char := if s.all isPySpace then [] else s

/-- Python truthiness of an optional string: `None` and the empty string are falsy. -/
def pyFalsy (input : Option (List Char)) : Bool := input = none || input = some []

def jsonOfOptStr : Option (List Char) → Json
  | none => .null
  | some s => .str s

/-- Python `str.split('/')`, the `XPath._xpath_structure` property (`xml.py:325-327`). -/
def splitSlashes : List Char → List (List Char)
  | [] => [[]]
  | c :: rest =>
    match splitSlashes rest with
    | [] => [[]]
    | e :: es => if c = '/' then [] :: e :: es else (c :: e) :: es

/-- `XPath.parent` (`xml.py:367-371`): all structure entries but the last, re-joined
with slashes. -/
def XPath.parent (p : XPath) : XPath :=
  ⟨List.intercalate ['/'] (splitSlashes p.raw_xpath).dropLast⟩

/-- `XPath.is_attribute` (`xml.py:341-345`): first character of the last
slash-separated entry; `IndexError` when that entry is empty. -/
def XPath.is_attribute (p : XPath) : Except PyErr Bool :=
  match (splitSlashes p.raw_xpath).getLast? with
  | none => .error .indexError
  | some [] => .error .indexError
  | some (c :: _) => .ok (c = '@')

/-- `XPath.attribute_name` (`xml.py:357-365`): the last entry without its `@`;
`ValueError` when the path is not an attribute path. -/
def XPath.attribute_name (p : XPath) : Except PyErr (List Char) :=
  match p.is_attribute with
  | .error e => .error e
  | .ok false => .error .valueErrorNotAttribute
  | .ok true =>
    match (splitSlashes p.raw_xpath).getLast? with
    | none => .error .indexError
    | some last => .ok last.tail

/-- First-match association lookup in a Python dict modelled as an ordered list. -/
def assocLookup {β : Type} (l : List (List Char × β)) (k : List Char) : Option β :=
  (l.find? fun kv => kv.1 = k).map (·.2)

/-- `XMLNodeToJSONNode._get_element_value` (`mapping.py:135-145`) with the default
`strip_whitespace=True`: find the node, take its text and strip it; a missing node or
a `None` text yields `None` via the caught `AttributeError`. -/
def get_element_value {α : Type} (ops : EtreeOps α) (etree : α) (path : XPath) :
    Option (List Char) :=
  match ops.find etree path.raw_xpath with
  | none => none
  | some el =>
    match ops.text el with
    | none => none
    | some t => some (pyStrip t)

/-- `XMLNodeToJSONNode._get_attribute` (`mapping.py:115-133`): resolve the parent
element and the attribute name; a namespaced name is expanded through the
short-to-full table (a missing short name raises `KeyError` at `mapping.py:124`,
uncaught); a missing parent element or a missing attribute yields `None` through the
caught `AttributeError`/`KeyError` of line 131. -/
def get_attribute {α : Type} (ops : EtreeOps α) (etree : α)
    (xml_namespaces : List (List Char × List Char)) (path : XPath) :
    Except PyErr (Option (List Char)) :=
  match path.attribute_name with
  | .error e => .error e
  | .ok name0 =>
    let resolved : Except PyErr (List Char) :=
      match name0.findIdx? (· = ':') with
      | none => .ok name0
      | some loc =>
        match assocLookup xml_namespaces (name0.take loc) with
        | none => .error (.keyErrorNs (name0.take loc))
        | some expanded =>
          .ok (Char.ofNat 123 :: expanded ++ Char.ofNat 125 :: name0.drop (loc + 1))
    match resolved with
    | .error e => .error e
    | .ok name =>
      match ops.find etree path.parent.raw_xpath with
      | none => .ok none
      | some el => .ok (ops.attrib el name)

/-- Modelled from the spec: `str_is_int` of the newer json utilities (behaviour fixed
by `tests/utils/test_json.py`: `'3'` and `'-4'` are ints, `'2.0'`, `'inf'`, `'-inf'`
are not): an optional sign followed by one or more digits. -/
def str_is_int (s : List Char) : Bool :=
  match s with
  | '-' :: rest => !rest.isEmpty && rest.all isPyDigit
  | _ => !s.isEmpty && s.all isPyDigit

/-- Modelled from the spec: `str_is_float` of the newer json utilities (behaviour
fixed by `tests/utils/test_json.py`: `'2.0'`, `'inf'`, `'-inf'` are floats): an
optional sign followed by digits with at most one dot, or an infinity/nan token. -/
def str_is_float (s : List Char) : Bool :=
  let body := match s with
    | '-' :: rest => rest
    | _ => s
  (!body.isEmpty && body.all (fun c => isPyDigit c || c = '.')
      && body.count '.' ≤ 1 && body ≠ ['.'])
    || body = "inf".toList || body = "Infinity".toList || body = "nan".toList

/-- A float text denoting an integral value: one dot followed only by zeros. -/
def floatIsIntegral (s : List Char) : Bool :=
  match splitDots s with
  | [_, frac] => !frac.isEmpty && frac.all (· = '0')
  | _ => false

/-- Modelled from the spec: `infer_json_type` of the newer json utilities
(spec.md 4.3: infer tries the boolean literals, then numeric — an integral float
collapses to integer — then falls back to string; an absent value collapses to
null). -/
def infer_json_type (input : Option (List Char)) : JSONNodeType :=
  match input with
  | none => .NULL
  | some s =>
    if s = "true".toList || s = "false".toList then .BOOLEAN
    else if str_is_int s then .INTEGER
    else if str_is_float s then
      if floatIsIntegral s then .INTEGER else .NUMBER
    else .STRING

/-- Python `int(x)` for an optional decimal text: `None` raises `TypeError`, a
non-numeric text raises `ValueError`. -/
def pyIntCast : Option (List Char) → Except PyErr Int
  | none => .error .typeErrorCast
  | some s =>
    match pyStrip s with
    | '-' :: rest =>
      if !rest.isEmpty && rest.all isPyDigit then .ok (-(digitsVal rest : Int))
      else .error .valueErrorCast
    | t =>
      if !t.isEmpty && t.all isPyDigit then .ok ((digitsVal t : Nat) : Int)
      else .error .valueErrorCast

/-- Python `float(x)` for an optional text, modelled opaquely: validity per the float
grammar, the value kept as the stripped text (float arithmetic is out of scope). -/
def pyFloatCast : Option (List Char) → Except PyErr Json
  | none => .error .typeErrorCast
  | some s =>
    if str_is_float (pyStrip s) then .ok (.num (pyStrip s)) else .error .valueErrorCast

/-- A structure entry that is a root marker: the loop of the reader treats the `$`
and `@` entries as no-ops wherever they occur (spec.md 4.2: root markers are
no-ops). -/
def isRootMarker (k : JSeg) : Bool := k = .key ['$'] || k = .key ['@']

/-- Value of a field of an ordered string-keyed object. -/
def assocJson (fs : List (List Char × Json)) (s : List Char) : Option Json :=
  (fs.find? fun kv => kv.1 = s).map (·.2)

/-- Python dict write `d[s] = v` on an ordered object: replaces the value in place
when the key exists, appends the pair otherwise. -/
def updField (fs : List (List Char × Json)) (s : List Char) (v : Json) :
    List (List Char × Json) :=
  if fs.any fun kv => kv.1 = s then
    fs.map fun kv => if kv.1 = s then (s, v) else kv
  else fs ++ [(s, v)]

/-- Python list indexing with negative indices. -/
def pyGetIdx (xs : List Json) (i : Int) : Option Json :=
  if 0 ≤ i then xs.get? i.toNat
  else if i.natAbs ≤ xs.length then xs.get? (xs.length - i.natAbs) else none

/-- Python list element assignment with negative indices (callers establish the
index is in range). -/
def pySetIdx (xs : List Json) (i : Int) (v : Json) : List Json :=
  if 0 ≤ i then xs.set i.toNat v else xs.set (xs.length - i.natAbs) v

/-- Modelled from the spec: the reader of spec.md section 4.2 (the newer
`get_item_from_json_path` revision that `mapping.py` is written against is absent
from `src/`).  Root markers are no-ops; each further entry indexes the current
value; an absent key or index fails `PathNotFound` (`keyError`) carrying the exact
failing sub-path, a value that cannot be indexed fails `NotIndexable`
(`notIndexable`) with the same sub-path.  Slice entries are outside the modelled
fragment (no NodeMap sink path contains one) and report `notIndexable`. -/
def read_item_spec : List JSeg → List JSeg → Json → Except PyErr Json
  | _, [], cur => .ok cur
  | seen, k :: rest, cur =>
    if isRootMarker k then read_item_spec (seen ++ [k]) rest cur
    else
      match k, cur with
      | .key s, .obj fs =>
        match assocJson fs s with
        | some v => read_item_spec (seen ++ [k]) rest v
        | none => .error (.keyError (seen ++ [k]))
      | .idx i, .arr xs =>
        match pyGetIdx xs i with
        | some v => read_item_spec (seen ++ [k]) rest v
        | none => .error (.keyError (seen ++ [k]))
      | .idx _, .obj _ => .error (.keyError (seen ++ [k]))
      | _, _ => .error (.notIndexable (seen ++ [k]))

/-- Modelled from the spec: entry point of the section-4.2 reader. -/
def get_item_spec (p : List JSeg) (doc : Json) : Except PyErr Json :=
  read_item_spec [] p doc

/-- Modelled from the spec: the writer of spec.md section 4.2 (the newer
`write_item_in_path` revision that `mapping.py` imports is absent from `src/`).  The
four steps are realised as one structural descent over the parsed sink path:

1. a final segment whose current value is an array appends the written value to it
   (a path consisting only of a root marker appends to an array document);
2. a final segment whose parent is an object or an in-range array index overwrites
   (or creates) the value at that segment;
3. a missing intermediate container is auto-vivified as an empty object, and a
   `null` met along the path is treated as a missing container the same way (the
   interpreter threads Python `None` as the fresh per-item accumulator, compare the
   section 8 scenario producing a field on such an accumulator);
4. a non-container met along the path is `NotIndexable`: at the final segment the
   error names the parent path (the `seen` entries), deeper it names the sub-path
   ending at the offending segment, as the section-4.2 reader would.

Out-of-range indices, integer segments under objects and slice segments are outside
the modelled fragment (no claim exercises them) and report errors. -/
def write_segs (v : Json) : List JSeg → List JSeg → Json → Except PyErr Json
  | seen, [], _cur => .error (.notIndexable seen)
  | seen, [k], cur =>
    if isRootMarker k then
      match cur with
      | .arr xs => .ok (.arr (xs ++ [v]))
      | _ => .error (.notIndexable (seen ++ [k]))
    else
      match cur with
      | .obj fs =>
        match k with
        | .key s =>
          match assocJson fs s with
          | some (.arr xs) => .ok (.obj (updField fs s (.arr (xs ++ [v]))))
          | _ => .ok (.obj (updField fs s v))
        | _ => .error (.keyError (seen ++ [k]))
      | .arr xs =>
        match k with
        | .idx i =>
          match pyGetIdx xs i with
          | some (.arr ys) => .ok (.arr (pySetIdx xs i (.arr (ys ++ [v]))))
          | some _ => .ok (.arr (pySetIdx xs i v))
          | none => .error (.keyError (seen ++ [k]))
        | _ => .error (.notIndexable seen)
      | .null =>
        match k with
        | .key s => .ok (.obj [(s, v)])
        | _ => .error (.notIndexable seen)
      | _ => .error (.notIndexable seen)
  | seen, k :: r1 :: rs, cur =>
    if isRootMarker k then write_segs v (seen ++ [k]) (r1 :: rs) cur
    else
      match cur with
      | .obj fs =>
        match k with
        | .key s =>
          let child := match assocJson fs s with
            | some c => c
            | none => Json.obj []
          match write_segs v (seen ++ [k]) (r1 :: rs) child with
          | .ok c2 => .ok (.obj (updField fs s c2))
          | .error e => .error e
        | _ => .error (.keyError (seen ++ [k]))
      | .arr xs =>
        match k with
        | .idx i =>
          match pyGetIdx xs i with
          | some c =>
            match write_segs v (seen ++ [k]) (r1 :: rs) c with
            | .ok c2 => .ok (.arr (pySetIdx xs i c2))
            | .error e => .error e
          | none => .error (.keyError (seen ++ [k]))
        | _ => .error (.notIndexable (seen ++ [k]))
      | .null =>
        match k with
        | .key s =>
          match write_segs v (seen ++ [k]) (r1 :: rs) (Json.obj []) with
          | .ok c2 => .ok (.obj [(s, c2)])
          | .error e => .error e
        | _ => .error (.notIndexable (seen ++ [k]))
      | _ => .error (.notIndexable (seen ++ [k]))

/-- Modelled from the spec: entry point of the section-4.2 writer. -/
def write_item_in_path_spec (v : Json) (p : List JSeg) (doc : Json) :
    Except PyErr Json :=
  write_segs v [] p doc

/-- `XMLNodeToJSONNode._map_input` (`mapping.py:147-231`).  Under `ignore_empty` a
whitespace-only text is first normalised to the empty text (line 152) and an absent
or empty input returns the document unchanged (lines 153-155).  The sink-type
dispatch then writes the cast value through the writer: `STRING` writes the input
as-is; `INTEGER`/`NUMBER` cast and convert a `ValueError` into the cast error naming
the source path (an absent input makes the bare `int(None)`/`float(None)` raise
`TypeError`, uncaught); `BOOLEAN` accepts exactly the tokens `true`/`false` and
raises the cast error naming the source path otherwise (lines 179-190); `NULL`
writes null; `INFER` dispatches on the inferred type with bare casts (errors
propagate raw).  A sink type with no branch (`OBJECT`, `ARRAY`) falls off the end of
the Python function, which returns `None`. -/
def XMLNodeToJSONNode.map_input (m : XMLNodeToJSONNode) (input0 : Option (List Char))
    (json : Json) (ignore_empty : Bool) : Except PyErr Json :=
  let input := if ignore_empty then
      match input0 with
      | some s => some (emptyNormalized s)
      | none => none
    else input0
  if ignore_empty && (input = none || input = some []) then .ok json
  else
    let toSegs := jsonPathStructure m.to_json_node.path
    match m.to_json_node.node_type with
    | .STRING => write_item_in_path_spec (jsonOfOptStr input) toSegs json
    | .INTEGER =>
      match pyIntCast input with
      | .ok n => write_item_in_path_spec (.int n) toSegs json
      | .error .valueErrorCast =>
        .error (.castError m.from_xml_node.path.raw_xpath input)
      | .error e => .error e
    | .NUMBER =>
      match pyFloatCast input with
      | .ok j => write_item_in_path_spec j toSegs json
      | .error .valueErrorCast =>
        .error (.castError m.from_xml_node.path.raw_xpath input)
      | .error e => .error e
    | .BOOLEAN =>
      if input = some "true".toList then
        write_item_in_path_spec (.bool true) toSegs json
      else if input = some "false".toList then
        write_item_in_path_spec (.bool false) toSegs json
      else .error (.castError m.from_xml_node.path.raw_xpath input)
    | .NULL => write_item_in_path_spec .null toSegs json
    | .INFER =>
      match infer_json_type input with
      | .BOOLEAN =>
        let b := if input = some "true".toList then true
          else if input = some "false".toList then false
          else !(pyFalsy input)
        write_item_in_path_spec (.bool b) toSegs json
      | .NUMBER =>
        match pyFloatCast input with
        | .ok j => write_item_in_path_spec j toSegs json
        | .error e => .error e
      | .INTEGER =>
        match pyIntCast input with
        | .ok n => write_item_in_path_spec (.int n) toSegs json
        | .error e => .error e
      | .STRING => write_item_in_path_spec (jsonOfOptStr input) toSegs json
      | .NULL => write_item_in_path_spec .null toSegs json
      | .ARRAY => write_item_in_path_spec (jsonOfOptStr input) toSegs json
      | .OBJECT => write_item_in_path_spec (jsonOfOptStr input) toSegs json
      | _ => .error .valueErrorUnsupportedNodeType
    | .OBJECT => .ok .null
    | .ARRAY => .ok .null

mutual

/-- `XMLNodeToJSONNode.map` (`mapping.py:233-281`): dispatch on the source node type.
`ATTRIBUTE`/`VALUE` extract a scalar (a falsy input under `ignore_empty` skips the
write, line 278) and hand it to `_map_input`; `SEQUENCE` requires item mappings
(line 253), an empty match set under `ignore_empty` returns the document unchanged
(line 257), an `ARRAY` sink builds one item per matched element — each item folds
every item mapping over a fresh `None` accumulator (lines 261-266) — and writes the
item list at the sink path, while any other sink type is an error (line 269);
`ELEMENT` folds the item mappings over a fresh empty dict and writes it (a missing
element makes the sub-searches of the item mappings raise `AttributeError` on
`None`). -/
def XMLNodeToJSONNode.map {α : Type} (ops : EtreeOps α) :
    XMLNodeToJSONNode → α → Json → List (List Char × List Char) → Bool →
      Except PyErr Json
  | .mk fx tj ims, etree, json, xml_namespaces, ignore_empty =>
    match fx.node_type with
    | .ATTRIBUTE =>
      match get_attribute ops etree xml_namespaces fx.path with
      | .error e => .error e
      | .ok input =>
        if pyFalsy input && ignore_empty then .ok json
        else (XMLNodeToJSONNode.mk fx tj ims).map_input input json ignore_empty
    | .VALUE =>
      let input := get_element_value ops etree fx.path
      if pyFalsy input && ignore_empty then .ok json
      else (XMLNodeToJSONNode.mk fx tj ims).map_input input json ignore_empty
    | .SEQUENCE =>
      match ims with
      | [] => .error .valueErrorNoItemMapping
      | im1 :: ims2 =>
        let input_sequence := ops.findall etree fx.path.raw_xpath
        if input_sequence.isEmpty && ignore_empty then .ok json
        else
          match tj.node_type with
          | .ARRAY =>
            match seqItems ops (im1 :: ims2) input_sequence xml_namespaces ignore_empty with
            | .ok items =>
              write_item_in_path_spec (.arr items) (jsonPathStructure tj.path) json
            | .error e => .error e
          | _ => .error .valueErrorCannotMapSequence
    | .ELEMENT =>
      match ops.find etree fx.path.raw_xpath with
      | none => .error .attributeError
      | some el =>
        match runItemMaps ops ims el (Json.obj []) xml_namespaces ignore_empty with
        | .ok item =>
          write_item_in_path_spec item (jsonPathStructure tj.path) json
        | .error e => .error e
termination_by m _ _ _ _ => (sizeOf m, 0)

/-- The inner fold of `map`: runs the item mappings in order against one element,
threading the per-item accumulator (`item = mapping.map(element, item, ...)`,
`mapping.py:264-265` and `273-274`). -/
def runItemMaps {α : Type} (ops : EtreeOps α) :
    List XMLNodeToJSONNode → α → Json → List (List Char × List Char) → Bool →
      Except PyErr Json
  | [], _, item, _, _ => .ok item
  | mp :: mps, el, item, xml_namespaces, ignore_empty =>
    match XMLNodeToJSONNode.map ops mp el item xml_namespaces ignore_empty with
    | .ok item2 => runItemMaps ops mps el item2 xml_namespaces ignore_empty
    | .error e => .error e
termination_by maps _ _ _ _ => (sizeOf maps, 0)

/-- The items loop of the sequence branch (`mapping.py:261-266`): one accumulator per
matched element, starting from `None`. -/
def seqItems {α : Type} (ops : EtreeOps α) :
    List XMLNodeToJSONNode → List α → List (List Char × List Char) → Bool →
      Except PyErr (List Json)
  | _, [], _, _ => .ok []
  | maps, el :: els, xml_namespaces, ignore_empty =>
    match runItemMaps ops maps el Json.null xml_namespaces ignore_empty with
    | .ok item =>
      match seqItems ops maps els xml_namespaces ignore_empty with
      | .ok items => .ok (item :: items)
      | .error e => .error e
    | .error e => .error e
termination_by maps elements _ _ => (sizeOf maps, elements.length + 1)

end

theorem assocJson_map_upd (s : List Char) (v : Json) :
    ∀ fs : List (List Char × Json),
      assocJson (fs.map fun kv => if kv.1 = s then (s, v) else kv) s
        = if fs.any (fun kv => kv.1 = s) then some v else none := by
  intro fs
  induction fs with
  | nil => simp [assocJson]
  | cons kv fs' ih =>
    by_cases hk : kv.1 = s
    · simp only [List.map_cons, if_pos hk, assocJson]
      rw [List.find?_cons_of_pos _ (by simp)]
      simp [List.any_cons, hk]
    · simp only [List.map_cons, if_neg hk, assocJson]
      rw [List.find?_cons_of_neg _ (by simp [hk])]
      simp only [List.any_cons, hk]
      simpa [assocJson] using ih

theorem assocJson_append_new (s : List Char) (v : Json) :
    ∀ fs : List (List Char × Json), (fs.any fun kv => kv.1 = s) = false →
      assocJson (fs ++ [(s, v)]) s = some v := by
  intro fs
  induction fs with
  | nil => simp [assocJson]
  | cons kv fs' ih =>
    intro h
    simp only [List.any_cons, Bool.or_eq_false_iff] at h
    simp only [List.cons_append, assocJson]
    rw [List.find?_cons_of_neg _ (by simp [h.1])]
    simpa [assocJson] using ih h.2

/-- After a dict write, reading the written key gives the written value. -/
theorem assocJson_updField (fs : List (List Char × Json)) (s : List Char) (v : Json) :
    assocJson (updField fs s v) s = some v := by
  rw [updField]
  by_cases h : fs.any fun kv => kv.1 = s
  · rw [if_pos h, assocJson_map_upd, if_pos h]
  · rw [if_neg h]
    exact assocJson_append_new s v fs (Bool.eq_false_iff.mpr h)

/-- After a list element assignment at an in-range index, reading that index gives
the assigned value. -/
theorem pyGetIdx_pySetIdx (xs : List Json) (i : Int) (c v : Json)
    (h : pyGetIdx xs i = some c) :
    pyGetIdx (pySetIdx xs i v) i = some v := by
  by_cases h0 : 0 ≤ i
  · rw [pyGetIdx, if_pos h0] at h
    have hlt : i.toNat < xs.length := by
      by_contra hge
      rw [List.get?_eq_none.mpr (by omega)] at h
      cases h
    rw [pySetIdx, if_pos h0, pyGetIdx, if_pos h0]
    exact List.get?_set_eq_of_lt v hlt
  · rw [pyGetIdx, if_neg h0] at h
    by_cases hg : i.natAbs ≤ xs.length
    · rw [if_pos hg] at h
      have h1 : 1 ≤ i.natAbs := by omega
      have hlt : xs.length - i.natAbs < xs.length := by
        by_contra hge
        push_neg at hge
        have hx : xs.length - i.natAbs = xs.length := by omega
        rw [hx, List.get?_eq_none.mpr le_rfl] at h
        cases h
      rw [pySetIdx, if_neg h0, pyGetIdx, if_neg h0, List.length_set, if_pos hg]
      exact List.get?_set_eq_of_lt v hlt
    · rw [if_neg hg] at h
      cases h

/-- Reading an empty remaining path returns the current value. -/
theorem read_nil (seen : List JSeg) (cur : Json) :
    read_item_spec seen [] cur = .ok cur := by
  simp [read_item_spec]

/-- A root-marker entry is a no-op for the reader. -/
theorem read_root_step (seen : List JSeg) (k : JSeg) (rest : List JSeg) (cur : Json)
    (hr : isRootMarker k = true) :
    read_item_spec seen (k :: rest) cur = read_item_spec (seen ++ [k]) rest cur := by
  simp [read_item_spec, hr]

/-- A present key steps the reader into the field value. -/
theorem read_key_step (seen : List JSeg) (s : List Char) (rest : List JSeg)
    (fs : List (List Char × Json)) (c : Json)
    (hr : isRootMarker (.key s) = false) (has : assocJson fs s = some c) :
    read_item_spec seen (.key s :: rest) (.obj fs) =
      read_item_spec (seen ++ [.key s]) rest c := by
  simp [read_item_spec, hr, has]

/-- An in-range index steps the reader into the element. -/
theorem read_idx_step (seen : List JSeg) (i : Int) (rest : List JSeg)
    (ys : List Json) (c : Json)
    (hr : isRootMarker (.idx i) = false) (hgi : pyGetIdx ys i = some c) :
    read_item_spec seen (.idx i :: rest) (.arr ys) =
      read_item_spec (seen ++ [.idx i]) rest c := by
  simp [read_item_spec, hr, hgi]

/-- A root-marker entry is a no-op for the writer on a non-final segment. -/
theorem write_root_step (v : Json) (seen : List JSeg) (k r1 : JSeg) (rs : List JSeg)
    (cur : Json) (hr : isRootMarker k = true) :
    write_segs v seen (k :: r1 :: rs) cur = write_segs v (seen ++ [k]) (r1 :: rs) cur := by
  simp [write_segs, hr]

/-- On a non-final present key the writer descends into the field value and
re-wraps the result. -/
theorem write_key_step (v : Json) (seen : List JSeg) (s : List Char) (r1 : JSeg)
    (rs : List JSeg) (fs : List (List Char × Json)) (c : Json)
    (hr : isRootMarker (.key s) = false) (has : assocJson fs s = some c) :
    write_segs v seen (.key s :: r1 :: rs) (.obj fs) =
      match write_segs v (seen ++ [.key s]) (r1 :: rs) c with
      | .ok c2 => .ok (.obj (updField fs s c2))
      | .error e => .error e := by
  simp [write_segs, hr, has]

/-- On a non-final in-range index the writer descends into the element and
re-wraps the result. -/
theorem write_idx_step (v : Json) (seen : List JSeg) (i : Int) (r1 : JSeg)
    (rs : List JSeg) (ys : List Json) (c : Json)
    (hr : isRootMarker (.idx i) = false) (hgi : pyGetIdx ys i = some c) :
    write_segs v seen (.idx i :: r1 :: rs) (.arr ys) =
      match write_segs v (seen ++ [.idx i]) (r1 :: rs) c with
      | .ok c2 => .ok (.arr (pySetIdx ys i c2))
      | .error e => .error e := by
  simp [write_segs, hr, hgi]

/-- If the reader finds an array at a non-empty path, the writer succeeds at that
path and the written document reads back the array with the value appended: the
step-1 append of the section-4.2 writer composes with the section-4.2 reader. -/
theorem write_append_of_read_arr (v : Json) :
    ∀ (p : List JSeg) (seen : List JSeg) (doc : Json) (xs : List Json),
      p ≠ [] →
      read_item_spec seen p doc = .ok (.arr xs) →
      ∃ doc2, write_segs v seen p doc = .ok doc2 ∧
        read_item_spec seen p doc2 = .ok (.arr (xs ++ [v]))
  | [], _, _, _, hne, _ => absurd rfl hne
  | [k], seen, doc, xs, _, hread => by
    cases hr : isRootMarker k with
    | true =>
      rw [read_root_step seen k [] doc hr, read_nil] at hread
      injection hread with h
      subst h
      refine ⟨.arr (xs ++ [v]), ?_, ?_⟩
      · simp [write_segs, hr]
      · rw [read_root_step seen k [] _ hr, read_nil]
    | false =>
      cases k with
      | key s =>
        cases doc
        case obj fs =>
          cases has : assocJson fs s with
          | none => simp [read_item_spec, hr, has] at hread
          | some c =>
            rw [read_key_step seen s [] fs c hr has, read_nil] at hread
            injection hread with h
            subst h
            refine ⟨.obj (updField fs s (.arr (xs ++ [v]))), ?_, ?_⟩
            · simp [write_segs, hr, has]
            · rw [read_key_step seen s [] _ _ hr
                (assocJson_updField fs s (.arr (xs ++ [v]))), read_nil]
        all_goals simp [read_item_spec, hr] at hread
      | idx i =>
        cases doc
        case arr ys =>
          cases hgi : pyGetIdx ys i with
          | none => simp [read_item_spec, hr, hgi] at hread
          | some c =>
            rw [read_idx_step seen i [] ys c hr hgi, read_nil] at hread
            injection hread with h
            subst h
            refine ⟨.arr (pySetIdx ys i (.arr (xs ++ [v]))), ?_, ?_⟩
            · simp [write_segs, hr, hgi]
            · rw [read_idx_step seen i [] _ _ hr
                (pyGetIdx_pySetIdx ys i (.arr xs) (.arr (xs ++ [v])) hgi), read_nil]
        all_goals simp [read_item_spec, hr] at hread
      | slc a b =>
        exfalso
        cases doc <;> simp [read_item_spec, hr] at hread
  | k :: r1 :: rs, seen, doc, xs, _, hread => by
    cases hr : isRootMarker k with
    | true =>
      rw [read_root_step seen k (r1 :: rs) doc hr] at hread
      obtain ⟨doc2, hw, hrb⟩ :=
        write_append_of_read_arr v (r1 :: rs) (seen ++ [k]) doc xs
          (List.cons_ne_nil r1 rs) hread
      refine ⟨doc2, ?_, ?_⟩
      · rw [write_root_step v seen k r1 rs doc hr]
        exact hw
      · rw [read_root_step seen k (r1 :: rs) doc2 hr]
        exact hrb
    | false =>
      cases k with
      | key s =>
        cases doc
        case obj fs =>
          cases has : assocJson fs s with
          | none => simp [read_item_spec, hr, has] at hread
          | some c =>
            rw [read_key_step seen s (r1 :: rs) fs c hr has] at hread
            obtain ⟨c2, hw, hrb⟩ :=
              write_append_of_read_arr v (r1 :: rs) (seen ++ [.key s]) c xs
                (List.cons_ne_nil r1 rs) hread
            refine ⟨.obj (updField fs s c2), ?_, ?_⟩
            · rw [write_key_step v seen s r1 rs fs c hr has, hw]
            · rw [read_key_step seen s (r1 :: rs) (updField fs s c2) c2 hr
                (assocJson_updField fs s c2)]
              exact hrb
        all_goals simp [read_item_spec, hr] at hread
      | idx i =>
        cases doc
        case arr ys =>
          cases hgi : pyGetIdx ys i with
          | none => simp [read_item_spec, hr, hgi] at hread
          | some c =>
            rw [read_idx_step seen i (r1 :: rs) ys c hr hgi] at hread
            obtain ⟨c2, hw, hrb⟩ :=
              write_append_of_read_arr v (r1 :: rs) (seen ++ [.idx i]) c xs
                (List.cons_ne_nil r1 rs) hread
            refine ⟨.arr (pySetIdx ys i c2), ?_, ?_⟩
            · rw [write_idx_step v seen i r1 rs ys c hr hgi, hw]
            · rw [read_idx_step seen i (r1 :: rs) (pySetIdx ys i c2) c2 hr
                (pyGetIdx_pySetIdx ys i c c2 hgi)]
              exact hrb
        all_goals simp [read_item_spec, hr] at hread
      | slc a b =>
        exfalso
        cases doc <;> simp [read_item_spec, hr] at hread

/-- Parsing one dot-separated element always yields at least one entry. -/
theorem parseElement_ne_nil (e : List Char) : parseElement e ≠ [] := by
  cases h : e.findIdx? (· = '[') with
  | none => simp [parseElement, h]
  | some i => simp [parseElement, h]

/-- The parsed structure of any raw path text is non-empty. -/
theorem jsonPathStructure_ne_nil (raw : List Char) : jsonPathStructure raw ≠ [] := by
  rw [jsonPathStructure]
  cases h : splitDots raw with
  | nil => exact absurd h (splitDots_ne_nil raw)
  | cons e es =>
    rw [List.flatMap_cons]
    intro hnil
    exact parseElement_ne_nil e (List.append_eq_nil.mp hnil).1

/-- C1: the claimed write-then-read round trip cannot hold on any input: the reader
crashes on the staticmethod arity bug before its loop starts, and the writer hits the
same bug right after its `split(-1)` call, so it never returns a document at all. -/
theorem C1_roundtrip_always_crashes (v : Json) (p : JSONPath) (doc doc2 : Json) :
    get_item_from_json_path p doc2 = .error .staticmethodMissingArg ∧
    ∀ w : Json, write_item_in_path v p doc ≠ .ok w := by
  refine ⟨rfl, ?_⟩
  intro w hcontra
  unfold write_item_in_path at hcontra
  cases hs : p.split (-1) with
  | error e => simp [hs] at hcontra
  | ok pr => simp [hs] at hcontra

/-- C2: at the array-valued sink path `$.a` of `{"a": []}` neither the first nor the
second write appends anything: both calls raise the staticmethod arity `TypeError`
(the second regardless of the document the first call was claimed to have
produced). -/
theorem C2_array_append_crashes (v1 v2 : Json) (doc2 : Json) :
    write_item_in_path v1 (JSONPath.parse "$.a".toList)
        (Json.obj [(['a'], Json.arr [])]) = .error .staticmethodMissingArg ∧
    write_item_in_path v2 (JSONPath.parse "$.a".toList) doc2
      = .error .staticmethodMissingArg :=
  ⟨rfl, rfl⟩

/-- C3: writing at `$.a.b` into `{"a": 5}` does fail without returning a partially
updated document, but not with the claimed not-indexable error naming `$.a`: the
staticmethod arity `TypeError` fires before the conflict check is reached. -/
theorem C3_conflict_write_crashes :
    write_item_in_path (Json.str ['x']) (JSONPath.parse "$.a.b".toList)
      (Json.obj [(['a'], Json.int 5)]) = .error .staticmethodMissingArg := rfl

/-- C4 counterexample: the split/append inverse fails on real paths.  Splitting
`$.a[0:3]` at the valid position 2 and appending reproduces the structure of
`$.a[:3]` — the falsy slice start 0 is dropped by the renderer — which differs from
the original structure.  And at the valid negative position -2, `$.key1` does not
split at all: the empty rendered prefix raises `IndexError`. -/
theorem C4_slice_split_append_counterexample :
    (∃ pre suf r,
        (JSONPath.parse "$.a[0:3]".toList).split 2 = .ok (pre, suf) ∧
        pre.append suf = .ok r ∧
        r.json_path_structure ≠ (JSONPath.parse "$.a[0:3]".toList).json_path_structure) ∧
    (JSONPath.parse "$.key1".toList).split (-2) = .error .indexError := by
  refine ⟨⟨JSONPath.parse "$.a".toList, JSONPath.parse "@[:3]".toList,
    ⟨"$.a[:3]".toList, [JSeg.key ['$'], JSeg.key ['a'], JSeg.slc none (some 3) none]⟩,
    rfl, rfl, ?_⟩, rfl⟩
  decide

/-- C4 (amended): split followed by append restores the original path structure for
every constructor-built path whose entries are names without dot or bracket
characters or plain index accesses, at every valid position that leaves the prefix
non-empty (every positive valid position, and every negative valid position short of
the full length). -/
theorem C4_split_append_amended (p : JSONPath) (k : Int)
    (hwf : p.WF)
    (hclean : ∀ seg ∈ p.json_path_structure, cleanSeg seg = true)
    (hvalid : 1 ≤ k.natAbs ∧ k.natAbs ≤ p.json_path_structure.length)
    (hpre : 0 < k ∨ k.natAbs < p.json_path_structure.length) :
    ∃ pre suf r, p.split k = .ok (pre, suf) ∧ pre.append suf = .ok r ∧
      r.json_path_structure = p.json_path_structure :=
  split_append_restores p k hwf hclean hvalid hpre

/-- Witness for C4: the amended inverse at the concrete path `$.a.b[2]` split at 2. -/
theorem C4_split_append_amended_witness :
    ∃ pre suf r, (JSONPath.parse "$.a.b[2]".toList).split 2 = .ok (pre, suf) ∧
      pre.append suf = .ok r ∧
      r.json_path_structure = (JSONPath.parse "$.a.b[2]".toList).json_path_structure :=
  C4_split_append_amended (JSONPath.parse "$.a.b[2]".toList) 2 rfl (by decide)
    (by decide) (by decide)

/-- The relation claim C8 states, written from the spec's words: the ancestor's text,
extended by a slash and the text of the further segments, is the whole of the
descendant's text — a strict textual-prefix relation. -/
def strictSegmentExtension (self ancestor : XPath) : Prop :=
  ∃ rest : List Char, self.raw_xpath = ancestor.raw_xpath ++ '/' :: rest

/-- C8 counterexample: `/b/a/c` is reported a descendant of `/a` because `/a/` occurs
as a substring of the middle of the text, yet `/a` is not a textual prefix of
`/b/a/c` at all. -/
theorem C8_substring_counterexample :
    XPath.is_descendant_of ⟨"/b/a/c".toList⟩ ⟨"/a".toList⟩ = true ∧
    ¬ strictSegmentExtension ⟨"/b/a/c".toList⟩ ⟨"/a".toList⟩ := by
  refine ⟨rfl, ?_⟩
  rintro ⟨rest, hr⟩
  rw [show "/b/a/c".toList = ['/', 'b', '/', 'a', '/', 'c'] from rfl,
      show "/a".toList = ['/', 'a'] from rfl] at hr
  simp at hr

/-- C8 (amended): `is_descendant_of` holds exactly when the ancestor's text followed
by a slash occurs as a substring anywhere in the descendant's text and the two paths
differ; the part of the claim that equality is never descendance does hold. -/
theorem C8_is_descendant_of_characterization (self ancestor : XPath) :
    (self.is_descendant_of ancestor = true ↔
      ((∃ pre post, self.raw_xpath = pre ++ ancestor.raw_xpath ++ '/' :: post) ∧
        self ≠ ancestor)) ∧
    self.is_descendant_of self = false := by
  constructor
  · rw [XPath.is_descendant_of, Bool.and_eq_true, decide_eq_true_eq,
        Bool.not_eq_true', beq_eq_false_iff_ne]
    constructor
    · rintro ⟨⟨s, t, hst⟩, hne⟩
      refine ⟨⟨s, t, ?_⟩, hne⟩
      rw [← hst]
      simp
    · rintro ⟨⟨pre, post, hdec⟩, hne⟩
      refine ⟨⟨pre, post, ?_⟩, hne⟩
      rw [hdec]
      simp
  · rw [XPath.is_descendant_of]
    simp

/-- C9: `build_sequence_tree` terminates on every input: a non-empty candidate list
always keeps at least one selected leaf out of its next pending list, so each pass
strictly shrinks the candidates, and every run drains them to the empty list. -/
theorem C9_build_sequence_tree_terminates (seqs leaves : List XNode) :
    (seqs = [] ∨
      (seqs.filter fun nd => !(nd.is_leaf seqs)).length < seqs.length) ∧
    (build_sequence_tree seqs leaves).1 = [] := by
  constructor
  · cases seqs with
    | nil => exact Or.inl rfl
    | cons s ss => exact Or.inr (trimmed_lt (s :: ss) (by simp))
  · exact build_sequence_tree_fst_nil seqs leaves

/-- C5: for a non-empty extracted scalar input and a boolean sink, `_map_input`
writes `True` for the literal token `true`, `False` for the literal token `false`,
and for any other input returns the cast error naming the source path without
performing a write. -/
theorem C5_boolean_cast_trichotomy (fx : XNode) (sinkPath : List Char)
    (ims : List XMLNodeToJSONNode) (s : List Char) (json : Json) (ignore_empty : Bool)
    (hne : emptyNormalized s ≠ []) :
    (XMLNodeToJSONNode.mk fx ⟨sinkPath, .BOOLEAN⟩ ims).map_input (some s) json
        ignore_empty
      = if s = "true".toList then
          write_item_in_path_spec (.bool true) (jsonPathStructure sinkPath) json
        else if s = "false".toList then
          write_item_in_path_spec (.bool false) (jsonPathStructure sinkPath) json
        else .error (.castError fx.path.raw_xpath (some s)) := by
  have hs : emptyNormalized s = s := by
    rw [emptyNormalized] at hne ⊢
    by_cases h : s.all isPySpace
    · exact absurd (if_pos h) hne
    · exact if_neg h
  have hsne : s ≠ [] := fun h => hne (by rw [h]; rfl)
  cases ignore_empty with
  | false =>
    simp [XMLNodeToJSONNode.map_input, XMLNodeToJSONNode.to_json_node,
      XMLNodeToJSONNode.from_xml_node]
  | true =>
    simp [XMLNodeToJSONNode.map_input, XMLNodeToJSONNode.to_json_node,
      XMLNodeToJSONNode.from_xml_node, hs, hsne]

/-- Witness for C5: the boolean trichotomy at the concrete non-boolean token `yes`. -/
theorem C5_boolean_cast_trichotomy_witness :
    (XMLNodeToJSONNode.mk (XNode.node ⟨"./b".toList⟩ .VALUE)
        ⟨"$.flag".toList, .BOOLEAN⟩ []).map_input (some "yes".toList) (Json.obj []) true
      = if "yes".toList = "true".toList then
          write_item_in_path_spec (.bool true) (jsonPathStructure "$.flag".toList)
            (Json.obj [])
        else if "yes".toList = "false".toList then
          write_item_in_path_spec (.bool false) (jsonPathStructure "$.flag".toList)
            (Json.obj [])
        else .error (.castError (XNode.node ⟨"./b".toList⟩ .VALUE).path.raw_xpath
          (some "yes".toList)) :=
  C5_boolean_cast_trichotomy (XNode.node ⟨"./b".toList⟩ .VALUE) "$.flag".toList []
    "yes".toList (Json.obj []) true (by decide)

/-- C6: a sequence node map whose source path matches nothing returns the document
unchanged under `ignore_empty`, and writes the empty array at the sink path
otherwise. -/
theorem C6_empty_sequence_match {α : Type} (ops : EtreeOps α) (etree : α)
    (fx : XNode) (sinkPath : List Char) (im1 : XMLNodeToJSONNode)
    (ims2 : List XMLNodeToJSONNode) (json : Json)
    (xml_namespaces : List (List Char × List Char))
    (hseq : fx.node_type = .SEQUENCE)
    (hfind : ops.findall etree fx.path.raw_xpath = []) :
    XMLNodeToJSONNode.map ops (.mk fx ⟨sinkPath, .ARRAY⟩ (im1 :: ims2)) etree json
        xml_namespaces true = .ok json ∧
    XMLNodeToJSONNode.map ops (.mk fx ⟨sinkPath, .ARRAY⟩ (im1 :: ims2)) etree json
        xml_namespaces false
      = write_item_in_path_spec (.arr []) (jsonPathStructure sinkPath) json := by
  constructor
  · simp [XMLNodeToJSONNode.map, hseq, hfind]
  · simp [XMLNodeToJSONNode.map, hseq, hfind, seqItems]

/-- A parsed-document oracle with no matching nodes at all, for C6's witness. -/
def C6ops : EtreeOps Unit :=
  ⟨fun _ _ => none, fun _ _ => [], fun _ => none, fun _ _ => none⟩

/-- Witness for C6: the empty-match dichotomy at a concrete sequence map over a
document with no matching nodes. -/
theorem C6_empty_sequence_match_witness :
    XMLNodeToJSONNode.map C6ops
        (.mk (XNode.node ⟨"./item".toList⟩ .SEQUENCE) ⟨"$.items".toList, .ARRAY⟩
          [.mk (XNode.node ⟨".".toList⟩ .VALUE) ⟨"@.v".toList, .STRING⟩ []])
        () (Json.obj []) [] true = .ok (Json.obj []) ∧
    XMLNodeToJSONNode.map C6ops
        (.mk (XNode.node ⟨"./item".toList⟩ .SEQUENCE) ⟨"$.items".toList, .ARRAY⟩
          [.mk (XNode.node ⟨".".toList⟩ .VALUE) ⟨"@.v".toList, .STRING⟩ []])
        () (Json.obj []) [] false
      = write_item_in_path_spec (.arr []) (jsonPathStructure "$.items".toList)
          (Json.obj []) :=
  C6_empty_sequence_match C6ops () (XNode.node ⟨"./item".toList⟩ .SEQUENCE)
    "$.items".toList
    (XMLNodeToJSONNode.mk (XNode.node ⟨".".toList⟩ .VALUE) ⟨"@.v".toList, .STRING⟩ [])
    [] (Json.obj []) [] rfl rfl

def C7ops : EtreeOps Nat where
  find := fun el _ => some el
  findall := fun _ _ => [1, 2, 3]
  text := fun el =>
    if el = 1 then some "first".toList
    else if el = 3 then some "third".toList else none
  attrib := fun _ _ => none

theorem C7_missing_text_item_counterexample :
    XMLNodeToJSONNode.map C7ops
        (.mk (XNode.node ⟨"./item".toList⟩ .SEQUENCE) ⟨"$.items".toList, .ARRAY⟩
          [.mk (XNode.node ⟨".".toList⟩ .VALUE) ⟨"@.value".toList, .INFER⟩ []])
        0 (Json.obj []) [] true
      = .ok (Json.obj [("items".toList, Json.arr
          [Json.obj [("value".toList, Json.str "first".toList)],
           Json.null,
           Json.obj [("value".toList, Json.str "third".toList)]])]) ∧
    (Json.null : Json) ≠ Json.obj [] := by
  refine ⟨?_, by decide⟩
  have hfa : C7ops.findall 0 ['.', '/', 'i', 't', 'e', 'm'] = [1, 2, 3] := rfl
  have h1 : get_element_value C7ops 1 (XPath.mk ['.']) = some ['f', 'i', 'r', 's', 't'] := rfl
  have h2 : get_element_value C7ops 2 (XPath.mk ['.']) = none := rfl
  have h3 : get_element_value C7ops 3 (XPath.mk ['.']) = some ['t', 'h', 'i', 'r', 'd'] := rfl
  have hp1 : pyFalsy (some ['f', 'i', 'r', 's', 't']) = false := rfl
  have hp3 : pyFalsy (some ['t', 'h', 'i', 'r', 'd']) = false := rfl
  have hpn : pyFalsy none = true := rfl
  have hmi1 : (XMLNodeToJSONNode.mk (XNode.node (XPath.mk ['.']) .VALUE)
        (JSONNode.mk ['@', '.', 'v', 'a', 'l', 'u', 'e'] .INFER) []).map_input
        (some ['f', 'i', 'r', 's', 't']) Json.null true
      = .ok (Json.obj [(['v', 'a', 'l', 'u', 'e'],
          Json.str ['f', 'i', 'r', 's', 't'])]) := rfl
  have hmi3 : (XMLNodeToJSONNode.mk (XNode.node (XPath.mk ['.']) .VALUE)
        (JSONNode.mk ['@', '.', 'v', 'a', 'l', 'u', 'e'] .INFER) []).map_input
        (some ['t', 'h', 'i', 'r', 'd']) Json.null true
      = .ok (Json.obj [(['v', 'a', 'l', 'u', 'e'],
          Json.str ['t', 'h', 'i', 'r', 'd'])]) := rfl
  have hw : write_item_in_path_spec
      (Json.arr [Json.obj [(['v', 'a', 'l', 'u', 'e'], Json.str ['f', 'i', 'r', 's', 't'])],
        Json.null,
        Json.obj [(['v', 'a', 'l', 'u', 'e'], Json.str ['t', 'h', 'i', 'r', 'd'])]])
      (jsonPathStructure ['$', '.', 'i', 't', 'e', 'm', 's']) (Json.obj [])
      = .ok (Json.obj [(['i', 't', 'e', 'm', 's'], Json.arr
          [Json.obj [(['v', 'a', 'l', 'u', 'e'], Json.str ['f', 'i', 'r', 's', 't'])],
           Json.null,
           Json.obj [(['v', 'a', 'l', 'u', 'e'], Json.str ['t', 'h', 'i', 'r', 'd'])]])]) := rfl
  simp [XMLNodeToJSONNode.map, seqItems, runItemMaps, XNode.node_type, XNode.path,
    hfa, h1, h2, h3, hp1, hp3, hpn, hmi1, hmi3, hw]

theorem C7_missing_text_item_amended :
    XMLNodeToJSONNode.map C7ops
        (.mk (XNode.node ⟨"./item".toList⟩ .SEQUENCE) ⟨"$.items".toList, .ARRAY⟩
          [.mk (XNode.node ⟨".".toList⟩ .VALUE) ⟨"@.value".toList, .INFER⟩ []])
        0 (Json.obj []) [] true
      = .ok (Json.obj [("items".toList, Json.arr
          [Json.obj [("value".toList, Json.str "first".toList)],
           Json.null,
           Json.obj [("value".toList, Json.str "third".toList)]])]) ∧
    XMLNodeToJSONNode.map C7ops
        (.mk (XNode.node ⟨"./item".toList⟩ .SEQUENCE) ⟨"$.items".toList, .ARRAY⟩
          [.mk (XNode.node ⟨".".toList⟩ .VALUE) ⟨"@.value".toList, .INFER⟩ []])
        0 (Json.obj []) [] false
      = .ok (Json.obj [("items".toList, Json.arr
          [Json.obj [("value".toList, Json.str "first".toList)],
           Json.obj [("value".toList, Json.null)],
           Json.obj [("value".toList, Json.str "third".toList)]])]) := by
  have hfa : C7ops.findall 0 ['.', '/', 'i', 't', 'e', 'm'] = [1, 2, 3] := rfl
  have h1 : get_element_value C7ops 1 (XPath.mk ['.']) = some ['f', 'i', 'r', 's', 't'] := rfl
  have h2 : get_element_value C7ops 2 (XPath.mk ['.']) = none := rfl
  have h3 : get_element_value C7ops 3 (XPath.mk ['.']) = some ['t', 'h', 'i', 'r', 'd'] := rfl
  have hp1 : pyFalsy (some ['f', 'i', 'r', 's', 't']) = false := rfl
  have hp3 : pyFalsy (some ['t', 'h', 'i', 'r', 'd']) = false := rfl
  have hpn : pyFalsy none = true := rfl
  have hmi1 : (XMLNodeToJSONNode.mk (XNode.node (XPath.mk ['.']) .VALUE)
        (JSONNode.mk ['@', '.', 'v', 'a', 'l', 'u', 'e'] .INFER) []).map_input
        (some ['f', 'i', 'r', 's', 't']) Json.null true
      = .ok (Json.obj [(['v', 'a', 'l', 'u', 'e'],
          Json.str ['f', 'i', 'r', 's', 't'])]) := rfl
  have hmi3 : (XMLNodeToJSONNode.mk (XNode.node (XPath.mk ['.']) .VALUE)
        (JSONNode.mk ['@', '.', 'v', 'a', 'l', 'u', 'e'] .INFER) []).map_input
        (some ['t', 'h', 'i', 'r', 'd']) Json.null true
      = .ok (Json.obj [(['v', 'a', 'l', 'u', 'e'],
          Json.str ['t', 'h', 'i', 'r', 'd'])]) := rfl
  have hmi1f : (XMLNodeToJSONNode.mk (XNode.node (XPath.mk ['.']) .VALUE)
        (JSONNode.mk ['@', '.', 'v', 'a', 'l', 'u', 'e'] .INFER) []).map_input
        (some ['f', 'i', 'r', 's', 't']) Json.null false
      = .ok (Json.obj [(['v', 'a', 'l', 'u', 'e'],
          Json.str ['f', 'i', 'r', 's', 't'])]) := rfl
  have hmi2f : (XMLNodeToJSONNode.mk (XNode.node (XPath.mk ['.']) .VALUE)
        (JSONNode.mk ['@', '.', 'v', 'a', 'l', 'u', 'e'] .INFER) []).map_input
        none Json.null false
      = .ok (Json.obj [(['v', 'a', 'l', 'u', 'e'], Json.null)]) := rfl
  have hmi3f : (XMLNodeToJSONNode.mk (XNode.node (XPath.mk ['.']) .VALUE)
        (JSONNode.mk ['@', '.', 'v', 'a', 'l', 'u', 'e'] .INFER) []).map_input
        (some ['t', 'h', 'i', 'r', 'd']) Json.null false
      = .ok (Json.obj [(['v', 'a', 'l', 'u', 'e'],
          Json.str ['t', 'h', 'i', 'r', 'd'])]) := rfl
  have hw : write_item_in_path_spec
      (Json.arr [Json.obj [(['v', 'a', 'l', 'u', 'e'], Json.str ['f', 'i', 'r', 's', 't'])],
        Json.null,
        Json.obj [(['v', 'a', 'l', 'u', 'e'], Json.str ['t', 'h', 'i', 'r', 'd'])]])
      (jsonPathStructure ['$', '.', 'i', 't', 'e', 'm', 's']) (Json.obj [])
      = .ok (Json.obj [(['i', 't', 'e', 'm', 's'], Json.arr
          [Json.obj [(['v', 'a', 'l', 'u', 'e'], Json.str ['f', 'i', 'r', 's', 't'])],
           Json.null,
           Json.obj [(['v', 'a', 'l', 'u', 'e'], Json.str ['t', 'h', 'i', 'r', 'd'])]])]) := rfl
  have hwf : write_item_in_path_spec
      (Json.arr [Json.obj [(['v', 'a', 'l', 'u', 'e'], Json.str ['f', 'i', 'r', 's', 't'])],
        Json.obj [(['v', 'a', 'l', 'u', 'e'], Json.null)],
        Json.obj [(['v', 'a', 'l', 'u', 'e'], Json.str ['t', 'h', 'i', 'r', 'd'])]])
      (jsonPathStructure ['$', '.', 'i', 't', 'e', 'm', 's']) (Json.obj [])
      = .ok (Json.obj [(['i', 't', 'e', 'm', 's'], Json.arr
          [Json.obj [(['v', 'a', 'l', 'u', 'e'], Json.str ['f', 'i', 'r', 's', 't'])],
           Json.obj [(['v', 'a', 'l', 'u', 'e'], Json.null)],
           Json.obj [(['v', 'a', 'l', 'u', 'e'], Json.str ['t', 'h', 'i', 'r', 'd'])]])]) := rfl
  constructor
  · simp [XMLNodeToJSONNode.map, seqItems, runItemMaps, XNode.node_type, XNode.path,
      hfa, h1, h2, h3, hp1, hp3, hpn, hmi1, hmi3, hw]
  · simp [XMLNodeToJSONNode.map, seqItems, runItemMaps, XNode.node_type, XNode.path,
      hfa, h1, h2, h3, hp1, hp3, hpn, hmi1f, hmi2f, hmi3f, hwf]

/-- C10: a sequence map with a non-empty match set whose sink path currently holds an
array appends the freshly built item list as one single nested element: afterwards the
sink path holds the original array with exactly one new final element, itself the
array of per-item accumulators. -/
theorem C10_sequence_appends_one_nested_element {α : Type} (ops : EtreeOps α)
    (etree : α) (fx : XNode) (sinkPath : List Char) (im1 : XMLNodeToJSONNode)
    (ims2 : List XMLNodeToJSONNode) (json : Json)
    (xml_namespaces : List (List Char × List Char)) (ignore_empty : Bool)
    (items xs : List Json)
    (hseq : fx.node_type = .SEQUENCE)
    (hne : (ops.findall etree fx.path.raw_xpath).isEmpty = false)
    (hitems : seqItems ops (im1 :: ims2) (ops.findall etree fx.path.raw_xpath)
        xml_namespaces ignore_empty = .ok items)
    (hread : get_item_spec (jsonPathStructure sinkPath) json = .ok (.arr xs)) :
    ∃ json2,
      XMLNodeToJSONNode.map ops (.mk fx ⟨sinkPath, .ARRAY⟩ (im1 :: ims2)) etree json
          xml_namespaces ignore_empty = .ok json2 ∧
      get_item_spec (jsonPathStructure sinkPath) json2
        = .ok (.arr (xs ++ [Json.arr items])) := by
  simp only [get_item_spec] at hread
  obtain ⟨json2, hw, hrb⟩ := write_append_of_read_arr (Json.arr items)
    (jsonPathStructure sinkPath) [] json xs (jsonPathStructure_ne_nil sinkPath) hread
  refine ⟨json2, ?_, ?_⟩
  · simp only [XMLNodeToJSONNode.map, hseq, hne, hitems, Bool.false_and,
      Bool.false_eq_true, if_false, write_item_in_path_spec]
    exact hw
  · simp only [get_item_spec]
    exact hrb

/-- A parsed-document oracle with one matching node carrying the text `x`, for C10's
witness. -/
def C10ops : EtreeOps Unit :=
  ⟨fun _ _ => some (), fun _ _ => [()], fun _ => some ['x'], fun _ _ => none⟩

/-- Witness for C10: one matched element mapped into a document already holding
`[1]` at the sink path `$.items`; the run appends the built item list as a single
nested element. -/
theorem C10_sequence_appends_one_nested_element_witness :
    ∃ json2,
      XMLNodeToJSONNode.map C10ops
          (.mk (XNode.node ⟨"./item".toList⟩ .SEQUENCE) ⟨"$.items".toList, .ARRAY⟩
            [.mk (XNode.node ⟨".".toList⟩ .VALUE) ⟨"@.v".toList, .STRING⟩ []])
          () (Json.obj [("items".toList, Json.arr [Json.int 1])]) [] false
        = .ok json2 ∧
      get_item_spec (jsonPathStructure "$.items".toList) json2
        = .ok (.arr ([Json.int 1] ++
            [Json.arr [Json.obj [("v".toList, Json.str ['x'])]]])) :=
  C10_sequence_appends_one_nested_element C10ops ()
    (XNode.node ⟨"./item".toList⟩ .SEQUENCE) "$.items".toList
    (XMLNodeToJSONNode.mk (XNode.node ⟨".".toList⟩ .VALUE) ⟨"@.v".toList, .STRING⟩ [])
    [] (Json.obj [("items".toList, Json.arr [Json.int 1])]) [] false
    [Json.obj [("v".toList, Json.str ['x'])]] [Json.int 1] rfl rfl
    (by
      have hfa : C10ops.findall () ['.', '/', 'i', 't', 'e', 'm'] = [()] := rfl
      have hgv : get_element_value C10ops () (XPath.mk ['.']) = some ['x'] := rfl
      have hpf : pyFalsy (some ['x']) = false := rfl
      have hmi : (XMLNodeToJSONNode.mk (XNode.node (XPath.mk ['.']) .VALUE)
            (JSONNode.mk ['@', '.', 'v'] .STRING) []).map_input (some ['x'])
            Json.null false
          = .ok (Json.obj [(['v'], Json.str ['x'])]) := rfl
      simp [seqItems, runItemMaps, XMLNodeToJSONNode.map, XNode.node_type, XNode.path,
        hfa, hgv, hpf, hmi])
    rfl
